import Mathlib

/-!
Shallow embedding of the listing-reaction analysis core of the Backtesting
repository (src/launch_util.py, src/micro_highs.py, src/launch_highlow.py),
together with theorems settling the frozen claims about it.

Modelling conventions:
* timestamps are `Int` millisecond epoch values (Python `datetime` values are
  UTC instants; `datetime.replace`/`timedelta` arithmetic is mirrored by ms
  arithmetic, and Python's `%` on a positive modulus agrees with `Int.emod`);
* candle close prices (Python floats used only through comparisons,
  subtraction, division and multiplication by exact constants) are `ℚ`;
* a candle source `fetch_klines_fn` is a function `Int → Int → Nat → List Int`
  returning raw timestamps for a half-open window `[start, end)` with a limit;
* Python's `max(xs, key=f)` / `min(xs, key=f)` (which keep the first extremal
  element on ties) are `pyFoldMax` / `pyFoldMin`;
* Python's stable `sorted(..., key=timestamp)` is `List.insertionSort` by
  timestamp (also stable: a new element is inserted before strictly greater
  elements only);
* Python dicts built by `setdefault(key, []).append(...)` over a candle list
  are modelled by `bucketMembers` (filtering the list by bucket key preserves
  exactly the dict's insertion order);
* the `while` loop of `find_first_trade_time` is a fuel-indexed recursion; the
  fuel `max_lookahead.toNat + 1` dominates the iteration count whenever
  `interval ≥ 1` and `limit ≥ 1` (each iteration advances the cursor by at
  least one), and the loop also reports how many source probes it performed;
  the final `datetime.fromtimestamp(ts / 1000)` conversion is left as the raw
  millisecond value, since it is a bijective re-presentation.
-/

namespace Backtesting

/-- Python `max` over a list of integers (`0` for the empty list, which the
code never queries). -/
def listMax : List Int → Int
  | [] => 0
  | x :: xs => xs.foldl max x

/-- Python `min` over a list of integers (`0` for the empty list, which the
code never queries). -/
def listMin : List Int → Int
  | [] => 0
  | x :: xs => xs.foldl min x

/-- Loop of `launch_util.find_first_trade_time` (src/launch_util.py lines
58-99).  State is `(cursor, window, max_window)`; the result pairs the found
timestamp (or `none`) with the number of calls made to the candle source. -/
def fftLoop (fetch : Int → Int → Nat → List Int) (start_ts interval search_end : Int)
    (lim : Nat) : Nat → Int → Int → Int → Option Int × Nat
  | 0, _, _, _ => (none, 0)
  | fuel + 1, cursor, window, maxw =>
    if cursor < search_end then
      let window_end := min (cursor + window) search_end
      let candles := fetch cursor window_end lim
      let filtered := candles.filter (fun ts => decide (start_ts - interval ≤ ts))
      if candles ≠ [] ∧ listMax candles > window_end + 2 * interval then
        (none, 1)
      else if filtered ≠ [] then
        (some (listMin filtered), 1)
      else
        let window' := if window < maxw then min (window * 2) maxw else window
        let r := fftLoop fetch start_ts interval search_end lim fuel window_end window' maxw
        (r.1, r.2 + 1)
    else (none, 0)

/-- Embedding of `launch_util.find_first_trade_time` (src/launch_util.py lines
43-99): adaptive windowed search for the first candle at/after `start_ts`.
Returns the found raw millisecond timestamp (`none` when absent) together with
the number of probes issued to the source. -/
def find_first_trade_time (fetch : Int → Int → Nat → List Int) (start_ts interval : Int)
    (max_lookahead : Int) (lim : Nat) :
    Option Int × Nat :=
  let max_window : Int := min (16 * 60 * 60 * 1000) ((lim : Int) * interval)
  let window : Int := min (2 * 60 * 60 * 1000) max_window
  fftLoop fetch start_ts interval (start_ts + max_lookahead) lim
    (max_lookahead.toNat + 1) start_ts window max_window

/-- A candle source backed by a fixed series `S` of raw timestamps, answering a
probe for `[s, e)` with the members of `S` in that window, truncated to the
request limit (the spec's Candle Source contract, §4.1 of the spec: normalized
ascending when `S` is sorted). -/
def honest_fetch (S : List Int) (s e : Int) (lim : Nat) : List Int :=
  (S.filter (fun ts => decide (s ≤ ts ∧ ts < e))).take lim

/-- Embedding of `mexc.Candle`: a timestamp (ms) and a close price. -/
structure Candle where
  timestamp : Int
  close : ℚ
deriving DecidableEq, Repr

/-- Python `max(xs, key=key)` over the nonempty list `x :: xs`: the fold keeps
the current best and replaces it only on a strictly larger key, so the first
maximal element wins ties. -/
def pyFoldMax {α : Type} (key : α → ℚ) (x : α) (xs : List α) : α :=
  xs.foldl (fun best c => if key best < key c then c else best) x

/-- Python `min(xs, key=key)` over the nonempty list `x :: xs` (first minimal
element wins ties). -/
def pyFoldMin {α : Type} (key : α → ℚ) (x : α) (xs : List α) : α :=
  xs.foldl (fun best c => if key c < key best then c else best) x

/-- Ordering on optional keys matching `c.pullback_size if ... else
float("-inf")` in Python: `none` behaves as minus infinity. -/
def optKeyLt : Option ℚ → Option ℚ → Bool
  | none, some _ => true
  | some x, some y => decide (x < y)
  | _, none => false

/-- Python `max(xs, key=...)` when the key is an optional rational with `none`
as minus infinity. -/
def pyFoldMaxOpt {α : Type} (key : α → Option ℚ) (x : α) (xs : List α) : α :=
  xs.foldl (fun best c => if optKeyLt (key best) (key c) then c else best) x

/-- Embedding of `_floor_to_3m` (src/micro_highs.py lines 41-43): replace the
minute component by `minute - minute % 3` and zero seconds and microseconds,
i.e. subtract the timestamp's residue modulo 3 minutes (180000 ms); the two
agree because whole days and hours are multiples of 3 minutes. -/
def floor_to_3m (t : Int) : Int := t - t % 180000

/-- Python's stable `sorted(candles, key=lambda c: c.timestamp)`. -/
def sortByTs (l : List Candle) : List Candle :=
  l.insertionSort (fun a b => a.timestamp ≤ b.timestamp)

instance : IsTotal Candle (fun a b => a.timestamp ≤ b.timestamp) :=
  ⟨fun a b => Int.le_total a.timestamp b.timestamp⟩

instance : IsTrans Candle (fun a b => a.timestamp ≤ b.timestamp) :=
  ⟨fun _ _ _ h h' => le_trans h h'⟩

/-- Content of the `buckets` dict of `_build_3m_series` at key `b`: the input
candles whose timestamp floors to `b`, in input order (`setdefault(...).append`
preserves exactly this order). -/
def bucketMembers (candles : List Candle) (b : Int) : List Candle :=
  candles.filter (fun c => decide (floor_to_3m c.timestamp = b))

/-- The sorted list of distinct bucket keys, as `sorted(buckets.keys())`. -/
def bucketKeys (candles : List Candle) : List Int :=
  ((candles.map (fun c => floor_to_3m c.timestamp)).dedup).insertionSort (· ≤ ·)

/-- Placeholder candle (never selected on the nonempty lists the code queries). -/
def dummyCandle : Candle := ⟨0, 0⟩

/-- The 3-minute close of bucket `b`: close of the chronologically last member
(`bucket_candles[-1].close` after the stable sort by timestamp). -/
def bucketClose (candles : List Candle) (b : Int) : ℚ :=
  ((sortByTs (bucketMembers candles b)).getLastD dummyCandle).close

/-- Embedding of `micro_highs.MicroHighCandidate`. -/
structure MicroHighCandidate where
  bucket_start : Int
  close3 : ℚ
deriving DecidableEq, Repr

/-- Embedding of `micro_highs._build_3m_series` (src/micro_highs.py lines
46-56): one `MicroHighCandidate` per distinct 3-minute bucket key, emitted in
ascending key order. -/
def build_3m_series (candles : List Candle) : List MicroHighCandidate :=
  (bucketKeys candles).map (fun b => ⟨b, bucketClose candles b⟩)

/-- Embedding of `micro_highs.ConfirmedMicroHigh`. -/
structure ConfirmedMicroHigh where
  bucket_start : Int
  close3 : ℚ
  micro_high_close : ℚ
  micro_high_time : Int
  pullback_low_close : Option ℚ
  pullback_low_time : Option Int
  pullback_size : Option ℚ
  pullback_pct : Option ℚ
deriving DecidableEq, Repr

/-- Placeholder series entry (out-of-range `getD` default; the loop only reads
indices `1 ≤ idx ≤ len - 2`, all in range). -/
def dummyMC : MicroHighCandidate := ⟨0, 0⟩

/-- One iteration of the candidate loop of `_confirmed_micro_highs`
(src/micro_highs.py lines 68-95) at interior index `idx`: `none` when the
index is skipped by a `continue`, `some entry` when an entry is appended.  The
unreachable empty-bucket case (Python's `max` would raise) yields `none`. -/
def microEntryAt (series : List MicroHighCandidate) (candles : List Candle)
    (lookahead_bars : Nat) (min_pullback_pct : ℚ) (idx : Nat) : Option ConfirmedMicroHigh :=
  let current := series.getD idx dummyMC
  let prev := series.getD (idx - 1) dummyMC
  let nxt := series.getD (idx + 1) dummyMC
  if prev.close3 < current.close3 ∧ nxt.close3 ≤ current.close3 then
    if ((series.drop (idx + 1)).take lookahead_bars).any
        (fun f => decide (f.close3 < current.close3 * (1 - min_pullback_pct))) then
      match bucketMembers candles current.bucket_start with
      | [] => none
      | c :: cs =>
        let mh := pyFoldMax (fun d => d.close) c cs
        some ⟨current.bucket_start, current.close3, mh.close, mh.timestamp,
          none, none, none, none⟩
    else none
  else none

/-- First pass of `_confirmed_micro_highs` (src/micro_highs.py lines 67-95):
the candidate-and-confirmation loop over interior indices `range(1, len-1)`. -/
def confirmedFirstPass (series : List MicroHighCandidate) (candles : List Candle)
    (lookahead_bars : Nat) (min_pullback_pct : ℚ) : List ConfirmedMicroHigh :=
  (List.range' 1 (series.length - 2)).filterMap
    (microEntryAt series candles lookahead_bars min_pullback_pct)

/-- Second pass of `_confirmed_micro_highs` (src/micro_highs.py lines 98-123):
annotate each confirmed high with its pullback low, searched from one minute
after the exact high up to the next confirmed high's bucket start (window end
for the last one). -/
def withPullbacks (candles : List Candle) (window_end : Int) :
    List ConfirmedMicroHigh → List ConfirmedMicroHigh
  | [] => []
  | mh :: rest =>
    let next_boundary := match rest with
      | [] => window_end
      | nxt :: _ => nxt.bucket_start
    let search_start := mh.micro_high_time + 60000
    let lows := candles.filter
      (fun c => decide (search_start ≤ c.timestamp ∧ c.timestamp < next_boundary))
    let mh' := match lows with
      | [] => mh
      | c :: cs =>
        let low := pyFoldMin (fun d => d.close) c cs
        let psize := mh.micro_high_close - low.close
        let ppct : Option ℚ :=
          if mh.micro_high_close = 0 then none else some (psize / mh.micro_high_close)
        ⟨mh.bucket_start, mh.close3, mh.micro_high_close, mh.micro_high_time,
          some low.close, some low.timestamp, some psize, ppct⟩
    mh' :: withPullbacks candles window_end rest

/-- Embedding of `micro_highs._confirmed_micro_highs` (src/micro_highs.py lines
59-123).  The `buckets` dict argument is represented by `bucketMembers candles`
(at the call site the dict is built from the same list). -/
def confirmed_micro_highs (series : List MicroHighCandidate) (candles : List Candle)
    (window_end : Int) (lookahead_bars : Nat) (min_pullback_pct : ℚ) :
    List ConfirmedMicroHigh :=
  withPullbacks candles window_end
    (confirmedFirstPass series candles lookahead_bars min_pullback_pct)

/-- Embedding of `micro_highs.MicroHighResult`. -/
structure MicroHighResult where
  max_price_1_close : Option ℚ
  max_price_1_time : Option Int
  lowest_after_1_close : Option ℚ
  lowest_after_1_time : Option Int
  max_price_2_close : Option ℚ
  max_price_2_time : Option Int
  lowest_after_2_close : Option ℚ
  lowest_after_2_time : Option Int
  notes : List String
deriving DecidableEq, Repr

/-- Embedding of `micro_highs.compute_micro_highs` (src/micro_highs.py lines
126-192). -/
def compute_micro_highs (candles : List Candle) (window_start window_end : Int)
    (lookahead_bars : Nat) (min_pullback_pct : ℚ) : MicroHighResult :=
  match sortByTs (candles.filter
      (fun c => decide (window_start ≤ c.timestamp ∧ c.timestamp ≤ window_end))) with
  | [] => ⟨none, none, none, none, none, none, none, none, ["no candles in window"]⟩
  | f :: fs =>
    let filtered := f :: fs
    let series := build_3m_series filtered
    let confirmed :=
      confirmed_micro_highs series filtered window_end lookahead_bars min_pullback_pct
    let max2 := pyFoldMax (fun c => c.close) f fs
    let after2 := filtered.filter (fun c => decide (max2.timestamp < c.timestamp))
    let tail2 : Option ℚ × Option Int × List String :=
      match after2 with
      | [] => (none, none, ["max price #2 at end of window"])
      | a :: as' =>
        let low := pyFoldMin (fun c => c.close) a as'
        (some low.close, some low.timestamp, [])
    match confirmed with
    | [] =>
      ⟨none, none, none, none, some max2.close, some max2.timestamp,
        tail2.1, tail2.2.1, tail2.2.2 ++ ["no confirmed micro highs"]⟩
    | c0 :: crest =>
      let mp := pyFoldMaxOpt (fun c => c.pullback_size) c0 crest
      ⟨some mp.micro_high_close, some mp.micro_high_time,
        mp.pullback_low_close, mp.pullback_low_time,
        some max2.close, some max2.timestamp, tail2.1, tail2.2.1, tail2.2.2⟩

/-- Embedding of `launch_highlow.CandleBucket`. -/
structure CandleBucket where
  start_time : Int
  candles : List Candle
  close : ℚ
deriving DecidableEq, Repr

/-- Embedding of `launch_highlow._build_3m_series` (src/launch_highlow.py lines
34-49): buckets carry their (time-sorted) member candles. -/
def build_3m_buckets (candles : List Candle) : List CandleBucket :=
  (bucketKeys candles).map
    (fun b => ⟨b, sortByTs (bucketMembers candles b), bucketClose candles b⟩)

/-- Embedding of `launch_highlow.LaunchHighLowResult`. -/
structure LaunchHighLowResult where
  highest_close : Option ℚ
  highest_time : Option Int
  pullback_1_close : Option ℚ
  pullback_1_time : Option Int
  lowest_close : Option ℚ
  lowest_time : Option Int
  pullback_2_close : Option ℚ
  pullback_2_time : Option Int
deriving DecidableEq, Repr

/-- Embedding of `launch_highlow.compute_launch_highlow` (src/launch_highlow.py
lines 52-117). -/
def compute_launch_highlow (candles : List Candle) (launch_time : Int) :
    LaunchHighLowResult :=
  match sortByTs (candles.filter
      (fun c => decide (launch_time < c.timestamp
        ∧ c.timestamp ≤ launch_time + 120 * 60000))) with
  | [] => ⟨none, none, none, none, none, none, none, none⟩
  | w :: wrest =>
    let window_candles := w :: wrest
    let hi := pyFoldMax (fun c => c.close) w wrest
    let after_high := window_candles.filter (fun c => decide (hi.timestamp < c.timestamp))
    let p1 : Option ℚ × Option Int :=
      match build_3m_buckets after_high with
      | [] => (none, none)
      | b :: bs =>
        let lowest_bucket := pyFoldMin (fun bb : CandleBucket => bb.close) b bs
        match lowest_bucket.candles with
        | [] => (none, none)
        | c :: cs =>
          let p := pyFoldMin (fun d => d.close) c cs
          (some p.close, some p.timestamp)
    let lo := pyFoldMin (fun c => c.close) w wrest
    let after_low := window_candles.filter (fun c => decide (lo.timestamp < c.timestamp))
    let p2 : Option ℚ × Option Int :=
      match build_3m_buckets after_low with
      | [] => (none, none)
      | b :: bs =>
        let highest_bucket := pyFoldMax (fun bb : CandleBucket => bb.close) b bs
        match highest_bucket.candles with
        | [] => (none, none)
        | c :: cs =>
          let p := pyFoldMax (fun d => d.close) c cs
          (some p.close, some p.timestamp)
    ⟨some hi.close, some hi.timestamp, p1.1, p1.2,
      some lo.close, some lo.timestamp, p2.1, p2.2⟩

/-! Helper lemmas about the Pythonic fold extrema. -/

lemma pyFoldMax_cons {α : Type} (key : α → ℚ) (x a : α) (t : List α) :
    pyFoldMax key x (a :: t) = pyFoldMax key (if key x < key a then a else x) t := rfl

lemma pyFoldMin_cons {α : Type} (key : α → ℚ) (x a : α) (t : List α) :
    pyFoldMin key x (a :: t) = pyFoldMin key (if key a < key x then a else x) t := rfl

lemma pyFoldMax_mem {α : Type} (key : α → ℚ) (x : α) (xs : List α) :
    pyFoldMax key x xs = x ∨ pyFoldMax key x xs ∈ xs := by
  induction xs generalizing x with
  | nil => exact Or.inl rfl
  | cons a t ih =>
    rw [pyFoldMax_cons]
    rcases ih (if key x < key a then a else x) with h | h
    · rw [h]
      by_cases hc : key x < key a
      · simp [hc]
      · simp [hc]
    · exact Or.inr (List.mem_cons_of_mem _ h)

lemma pyFoldMin_mem {α : Type} (key : α → ℚ) (x : α) (xs : List α) :
    pyFoldMin key x xs = x ∨ pyFoldMin key x xs ∈ xs := by
  induction xs generalizing x with
  | nil => exact Or.inl rfl
  | cons a t ih =>
    rw [pyFoldMin_cons]
    rcases ih (if key a < key x then a else x) with h | h
    · rw [h]
      by_cases hc : key a < key x
      · simp [hc]
      · simp [hc]
    · exact Or.inr (List.mem_cons_of_mem _ h)

lemma pyFoldMax_le {α : Type} (key : α → ℚ) (x : α) (xs : List α) :
    key x ≤ key (pyFoldMax key x xs) ∧ ∀ y ∈ xs, key y ≤ key (pyFoldMax key x xs) := by
  induction xs generalizing x with
  | nil => exact ⟨le_refl _, by simp⟩
  | cons a t ih =>
    rw [pyFoldMax_cons]
    obtain ⟨h1, h2⟩ := ih (if key x < key a then a else x)
    refine ⟨le_trans ?_ h1, ?_⟩
    · by_cases hc : key x < key a
      · simp only [if_pos hc]; exact le_of_lt hc
      · simp only [if_neg hc]; exact le_refl _
    · intro y hy
      rcases List.mem_cons.mp hy with rfl | hyt
      · refine le_trans ?_ h1
        by_cases hc : key x < key y
        · simp only [if_pos hc]; exact le_refl _
        · simp only [if_neg hc]; exact le_of_not_lt hc
      · exact h2 y hyt

lemma pyFoldMin_le {α : Type} (key : α → ℚ) (x : α) (xs : List α) :
    key (pyFoldMin key x xs) ≤ key x ∧ ∀ y ∈ xs, key (pyFoldMin key x xs) ≤ key y := by
  induction xs generalizing x with
  | nil => exact ⟨le_refl _, by simp⟩
  | cons a t ih =>
    rw [pyFoldMin_cons]
    obtain ⟨h1, h2⟩ := ih (if key a < key x then a else x)
    refine ⟨le_trans h1 ?_, ?_⟩
    · by_cases hc : key a < key x
      · simp only [if_pos hc]; exact le_of_lt hc
      · simp only [if_neg hc]; exact le_refl _
    · intro y hy
      rcases List.mem_cons.mp hy with rfl | hyt
      · refine le_trans h1 ?_
        by_cases hc : key y < key x
        · simp only [if_pos hc]; exact le_refl _
        · simp only [if_neg hc]; exact le_of_not_lt hc
      · exact h2 y hyt

lemma pyFoldMax_le_all {α : Type} (key : α → ℚ) (x : α) (xs : List α) :
    ∀ y ∈ x :: xs, key y ≤ key (pyFoldMax key x xs) := by
  intro y hy
  rcases List.mem_cons.mp hy with rfl | hyt
  · exact (pyFoldMax_le key y xs).1
  · exact (pyFoldMax_le key x xs).2 y hyt

lemma pyFoldMin_le_all {α : Type} (key : α → ℚ) (x : α) (xs : List α) :
    ∀ y ∈ x :: xs, key (pyFoldMin key x xs) ≤ key y := by
  intro y hy
  rcases List.mem_cons.mp hy with rfl | hyt
  · exact (pyFoldMin_le key y xs).1
  · exact (pyFoldMin_le key x xs).2 y hyt

lemma pyFoldMax_mem_cons {α : Type} (key : α → ℚ) (x : α) (xs : List α) :
    pyFoldMax key x xs ∈ x :: xs := by
  rcases pyFoldMax_mem key x xs with h | h
  · rw [h]; exact List.mem_cons_self _ _
  · exact List.mem_cons_of_mem _ h

lemma pyFoldMin_mem_cons {α : Type} (key : α → ℚ) (x : α) (xs : List α) :
    pyFoldMin key x xs ∈ x :: xs := by
  rcases pyFoldMin_mem key x xs with h | h
  · rw [h]; exact List.mem_cons_self _ _
  · exact List.mem_cons_of_mem _ h

/-! Helper lemmas about integer list folds (Python min and max over ints). -/

lemma foldl_min_le_init (x : Int) (xs : List Int) : xs.foldl min x ≤ x := by
  induction xs generalizing x with
  | nil => exact le_refl _
  | cons a t ih => exact le_trans (ih (min x a)) (min_le_left _ _)

lemma foldl_max_ge_init (x : Int) (xs : List Int) : x ≤ xs.foldl max x := by
  induction xs generalizing x with
  | nil => exact le_refl _
  | cons a t ih => exact le_trans (le_max_left _ _) (ih (max x a))

lemma foldl_min_le_mem (x y : Int) (xs : List Int) (hy : y ∈ xs) : xs.foldl min x ≤ y := by
  induction xs generalizing x with
  | nil => cases hy
  | cons a t ih =>
    rw [List.foldl_cons]
    rcases List.mem_cons.mp hy with rfl | hyt
    · exact le_trans (foldl_min_le_init _ t) (min_le_right x y)
    · exact ih (min x a) hyt

lemma foldl_min_mem (x : Int) (xs : List Int) : xs.foldl min x = x ∨ xs.foldl min x ∈ xs := by
  induction xs generalizing x with
  | nil => exact Or.inl rfl
  | cons a t ih =>
    rcases ih (min x a) with h | h
    · rw [List.foldl_cons, h]
      rcases min_choice x a with h' | h'
      · exact Or.inl h'
      · rw [h']; exact Or.inr (List.mem_cons_self a t)
    · exact Or.inr (List.mem_cons_of_mem _ h)

lemma foldl_max_ge_mem (x y : Int) (xs : List Int) (hy : y ∈ xs) : y ≤ xs.foldl max x := by
  induction xs generalizing x with
  | nil => cases hy
  | cons a t ih =>
    rw [List.foldl_cons]
    rcases List.mem_cons.mp hy with rfl | hyt
    · exact le_trans (le_max_right x y) (foldl_max_ge_init (max x y) t)
    · exact ih (max x a) hyt

lemma foldl_max_mem (x : Int) (xs : List Int) : xs.foldl max x = x ∨ xs.foldl max x ∈ xs := by
  induction xs generalizing x with
  | nil => exact Or.inl rfl
  | cons a t ih =>
    rcases ih (max x a) with h | h
    · rw [List.foldl_cons, h]
      rcases max_choice x a with h' | h'
      · exact Or.inl h'
      · rw [h']; exact Or.inr (List.mem_cons_self a t)
    · exact Or.inr (List.mem_cons_of_mem _ h)

lemma listMin_eq_head_of_le (x : Int) (xs : List Int) (h : ∀ y ∈ xs, x ≤ y) :
    listMin (x :: xs) = x := by
  have h1 : listMin (x :: xs) ≤ x := foldl_min_le_init x xs
  rcases foldl_min_mem x xs with h2 | h2
  · exact h2
  · exact le_antisymm h1 (h _ h2)

lemma listMax_mem (x : Int) (xs : List Int) : listMax (x :: xs) ∈ x :: xs := by
  rcases foldl_max_mem x xs with h | h
  · rw [listMax, h]; exact List.mem_cons_self _ _
  · exact List.mem_cons_of_mem _ h

/-! Helper lemmas about sorting by timestamp and the bucketizer. -/

lemma sortByTs_perm (l : List Candle) : (sortByTs l).Perm l :=
  List.perm_insertionSort _ l

lemma sortByTs_sorted (l : List Candle) :
    List.Sorted (fun a b : Candle => a.timestamp ≤ b.timestamp) (sortByTs l) :=
  List.sorted_insertionSort _ l

lemma mem_sortByTs {c : Candle} {l : List Candle} : c ∈ sortByTs l ↔ c ∈ l :=
  (sortByTs_perm l).mem_iff

lemma sorted_nodupTs_eq (l₁ : List Candle) : ∀ (l₂ : List Candle), l₁.Perm l₂ →
    List.Sorted (fun a b : Candle => a.timestamp ≤ b.timestamp) l₁ →
    List.Sorted (fun a b : Candle => a.timestamp ≤ b.timestamp) l₂ →
    (l₁.map (fun c => c.timestamp)).Nodup → l₁ = l₂ := by
  induction l₁ with
  | nil =>
    intro l₂ hp _ _ _
    exact (List.Perm.eq_nil hp.symm).symm
  | cons a t ih =>
    intro l₂ hp hs1 hs2 hnd
    cases l₂ with
    | nil => exact absurd hp.length_eq (by simp)
    | cons b t₂ =>
      rw [List.map_cons, List.nodup_cons] at hnd
      have hab : a = b := by
        have ha2 : a ∈ b :: t₂ := hp.mem_iff.mp (List.mem_cons_self a t)
        rcases List.mem_cons.mp ha2 with h | hat2
        · exact h
        · have hb1 : b ∈ a :: t := hp.mem_iff.mpr (List.mem_cons_self b t₂)
          rcases List.mem_cons.mp hb1 with h | hbt
          · exact h.symm
          · have h1 : a.timestamp ≤ b.timestamp := List.rel_of_sorted_cons hs1 b hbt
            have h2 : b.timestamp ≤ a.timestamp := List.rel_of_sorted_cons hs2 a hat2
            have hts : b.timestamp = a.timestamp := le_antisymm h2 h1
            have hmem : b.timestamp ∈ t.map (fun c => c.timestamp) :=
              List.mem_map_of_mem _ hbt
            rw [hts] at hmem
            exact absurd hmem hnd.1
      subst hab
      have htp : t.Perm t₂ := hp.cons_inv
      rw [ih t₂ htp hs1.of_cons hs2.of_cons hnd.2]

lemma getLastD_mem : ∀ (l : List Candle) (d : Candle), l ≠ [] → l.getLastD d ∈ l := by
  intro l
  induction l with
  | nil => intro d h; exact absurd rfl h
  | cons a t ih =>
    intro d _
    rw [List.getLastD_cons]
    cases t with
    | nil => simp
    | cons b u => exact List.mem_cons_of_mem _ (ih a (by simp))

lemma getLastD_ts_ge : ∀ (l : List Candle) (d : Candle),
    List.Sorted (fun a b : Candle => a.timestamp ≤ b.timestamp) l →
    ∀ c ∈ l, c.timestamp ≤ (l.getLastD d).timestamp := by
  intro l
  induction l with
  | nil => intro d _ c hc; cases hc
  | cons a t ih =>
    intro d hs c hc
    rw [List.getLastD_cons]
    rcases List.mem_cons.mp hc with rfl | hct
    · cases t with
      | nil => simp
      | cons b u =>
        exact List.rel_of_sorted_cons hs _ (getLastD_mem (b :: u) c (by simp))
    · exact ih a hs.of_cons c hct

lemma mem_bucketMembers {c : Candle} {cs : List Candle} {b : Int} :
    c ∈ bucketMembers cs b ↔ c ∈ cs ∧ floor_to_3m c.timestamp = b := by
  simp [bucketMembers, List.mem_filter]

lemma mem_bucketKeys {b : Int} {cs : List Candle} :
    b ∈ bucketKeys cs ↔ ∃ c ∈ cs, floor_to_3m c.timestamp = b := by
  unfold bucketKeys
  rw [(List.perm_insertionSort _ _).mem_iff, List.mem_dedup, List.mem_map]

lemma bucketKeys_sorted (cs : List Candle) : List.Sorted (· ≤ ·) (bucketKeys cs) :=
  List.sorted_insertionSort _ _

lemma bucketKeys_nodup (cs : List Candle) : (bucketKeys cs).Nodup :=
  ((List.perm_insertionSort _ _).nodup_iff).mpr (List.nodup_dedup _)

lemma bucketKeys_strict (cs : List Candle) : List.Sorted (· < ·) (bucketKeys cs) :=
  (bucketKeys_sorted cs).lt_of_le (bucketKeys_nodup cs)

lemma bucketMembers_ne_nil {b : Int} {cs : List Candle} (h : b ∈ bucketKeys cs) :
    bucketMembers cs b ≠ [] := by
  obtain ⟨c, hc, hfc⟩ := mem_bucketKeys.mp h
  exact List.ne_nil_of_mem (mem_bucketMembers.mpr ⟨hc, hfc⟩)

lemma build_map_bucket_start (cs : List Candle) :
    (build_3m_series cs).map (fun e => e.bucket_start) = bucketKeys cs := by
  rw [build_3m_series, List.map_map]
  rw [show ((fun e : MicroHighCandidate => e.bucket_start)
      ∘ fun b => (⟨b, bucketClose cs b⟩ : MicroHighCandidate)) = fun b => b from rfl]
  exact List.map_id _

lemma build_length (cs : List Candle) :
    (build_3m_series cs).length = (bucketKeys cs).length := by
  simp [build_3m_series]

lemma build_getD (cs : List Candle) (i : Nat) (h : i < (build_3m_series cs).length) :
    (build_3m_series cs).getD i dummyMC =
      ⟨(bucketKeys cs).getD i 0, bucketClose cs ((bucketKeys cs).getD i 0)⟩ := by
  have h' : i < (bucketKeys cs).length := by rw [← build_length]; exact h
  rw [List.getD_eq_getElem _ _ h, List.getD_eq_getElem _ _ h']
  simp [build_3m_series]

lemma floor_to_3m_le (t : Int) : floor_to_3m t ≤ t := by
  unfold floor_to_3m; omega

lemma lt_floor_to_3m_add (t : Int) : t < floor_to_3m t + 180000 := by
  unfold floor_to_3m; omega

lemma floor_to_3m_emod (t : Int) : floor_to_3m t % 180000 = 0 := by
  unfold floor_to_3m; omega

lemma floor_to_3m_of_aligned {t : Int} (h : t % 180000 = 0) : floor_to_3m t = t := by
  unfold floor_to_3m; omega

lemma filter_ts_eq_singleton : ∀ (cs : List Candle),
    (cs.map (fun c => c.timestamp)).Nodup →
    ∀ c ∈ cs, cs.filter (fun d => decide (d.timestamp = c.timestamp)) = [c] := by
  intro cs
  induction cs with
  | nil => intro _ c hc; cases hc
  | cons a t ih =>
    intro hnd c hc
    rw [List.map_cons, List.nodup_cons] at hnd
    rcases List.mem_cons.mp hc with rfl | hct
    · have ht : t.filter (fun d => decide (d.timestamp = c.timestamp)) = [] := by
        rw [List.filter_eq_nil_iff]
        intro d hd
        simp only [decide_eq_true_eq]
        intro hdc
        exact hnd.1 (hdc ▸ List.mem_map_of_mem _ hd)
      simp [List.filter_cons, ht]
    · have hne : a.timestamp ≠ c.timestamp := by
        intro he
        have : a.timestamp ∈ t.map (fun d => d.timestamp) := by
          rw [he]; exact List.mem_map_of_mem _ hct
        exact hnd.1 this
      simp [List.filter_cons, hne, ih hnd.2 c hct]

lemma bucketKeys_perm_eq {cs cs' : List Candle} (hp : cs.Perm cs') :
    bucketKeys cs = bucketKeys cs' := by
  unfold bucketKeys
  exact List.eq_of_perm_of_sorted
    (((List.perm_insertionSort _ _).trans ((hp.map _).dedup)).trans
      (List.perm_insertionSort _ _).symm)
    (List.sorted_insertionSort _ _) (List.sorted_insertionSort _ _)

lemma bucketClose_perm_eq {cs cs' : List Candle} (hp : cs.Perm cs')
    (hnd : (cs.map (fun c => c.timestamp)).Nodup) (b : Int) :
    bucketClose cs b = bucketClose cs' b := by
  unfold bucketClose
  have hmp : (bucketMembers cs b).Perm (bucketMembers cs' b) := hp.filter _
  have hsp : (sortByTs (bucketMembers cs b)).Perm (sortByTs (bucketMembers cs' b)) :=
    (sortByTs_perm _).trans (hmp.trans (sortByTs_perm _).symm)
  have hnd0 : ((bucketMembers cs b).map (fun c => c.timestamp)).Nodup :=
    List.Nodup.sublist ((List.filter_sublist cs).map _) hnd
  have hnd1 : ((sortByTs (bucketMembers cs b)).map (fun c => c.timestamp)).Nodup :=
    (((sortByTs_perm _).map _).nodup_iff).mpr hnd0
  rw [sorted_nodupTs_eq _ _ hsp (sortByTs_sorted _) (sortByTs_sorted _) hnd1]

lemma build_perm_eq {cs cs' : List Candle} (hp : cs.Perm cs')
    (hnd : (cs.map (fun c => c.timestamp)).Nodup) :
    build_3m_series cs = build_3m_series cs' := by
  unfold build_3m_series
  rw [← bucketKeys_perm_eq hp]
  exact List.map_congr_left (fun b _ => by rw [bucketClose_perm_eq hp hnd b])

lemma bucketClose_aligned {cs : List Candle}
    (hnd : (cs.map (fun c => c.timestamp)).Nodup)
    (hal : ∀ c ∈ cs, c.timestamp % 180000 = 0) {c : Candle} (hc : c ∈ cs) :
    bucketClose cs c.timestamp = c.close := by
  have hbm : bucketMembers cs c.timestamp = [c] := by
    unfold bucketMembers
    have hcong : ∀ d ∈ cs, (fun d => decide (floor_to_3m d.timestamp = c.timestamp)) d
        = (fun d => decide (d.timestamp = c.timestamp)) d := by
      intro d hd
      simp only
      rw [floor_to_3m_of_aligned (hal d hd)]
    rw [List.filter_congr hcong, filter_ts_eq_singleton cs hnd c hc]
  rw [bucketClose, hbm]
  rfl

lemma build_aligned_eq (cs : List Candle)
    (hnd : (cs.map (fun c => c.timestamp)).Nodup)
    (hal : ∀ c ∈ cs, c.timestamp % 180000 = 0) :
    build_3m_series cs
      = (sortByTs cs).map (fun c => (⟨c.timestamp, c.close⟩ : MicroHighCandidate)) := by
  have hkeys : bucketKeys cs = (sortByTs cs).map (fun c => c.timestamp) := by
    unfold bucketKeys
    have hmf : cs.map (fun c => floor_to_3m c.timestamp) = cs.map (fun c => c.timestamp) :=
      List.map_congr_left (fun c hc => floor_to_3m_of_aligned (hal c hc))
    rw [hmf, List.dedup_eq_self.mpr hnd]
    exact List.eq_of_perm_of_sorted
      ((List.perm_insertionSort _ _).trans ((sortByTs_perm cs).map _).symm)
      (List.sorted_insertionSort _ _)
      (by rw [List.Sorted, List.pairwise_map]; exact sortByTs_sorted cs)
  unfold build_3m_series
  rw [hkeys, List.map_map]
  apply List.map_congr_left
  intro c hc
  have hcin : c ∈ cs := mem_sortByTs.mp hc
  simp only [Function.comp]
  rw [bucketClose_aligned hnd hal hcin]

lemma build_idem (cs : List Candle) :
    build_3m_series ((build_3m_series cs).map (fun e => Candle.mk e.bucket_start e.close3))
      = build_3m_series cs := by
  have hts2 : ((build_3m_series cs).map
      (fun e => Candle.mk e.bucket_start e.close3)).map (fun c => c.timestamp)
      = bucketKeys cs := by
    rw [List.map_map]
    rw [show ((fun c : Candle => c.timestamp)
        ∘ fun e : MicroHighCandidate => Candle.mk e.bucket_start e.close3)
        = fun e : MicroHighCandidate => e.bucket_start from rfl]
    exact build_map_bucket_start cs
  have hnd2 : (((build_3m_series cs).map
      (fun e => Candle.mk e.bucket_start e.close3)).map (fun c => c.timestamp)).Nodup := by
    rw [hts2]; exact bucketKeys_nodup cs
  have hal2 : ∀ c ∈ (build_3m_series cs).map
      (fun e => Candle.mk e.bucket_start e.close3), c.timestamp % 180000 = 0 := by
    intro c hc
    obtain ⟨e, he, rfl⟩ := List.mem_map.mp hc
    have hbsk : e.bucket_start ∈ bucketKeys cs := by
      rw [← build_map_bucket_start cs]
      exact List.mem_map_of_mem _ he
    obtain ⟨d, _, hdf⟩ := mem_bucketKeys.mp hbsk
    rw [← hdf]
    exact floor_to_3m_emod d.timestamp
  rw [build_aligned_eq _ hnd2 hal2]
  have hsorted2 : List.Sorted (fun a b : Candle => a.timestamp ≤ b.timestamp)
      ((build_3m_series cs).map (fun e => Candle.mk e.bucket_start e.close3)) := by
    rw [List.Sorted]
    have := bucketKeys_sorted cs
    rw [← hts2, List.Sorted, List.pairwise_map] at this
    exact this
  have hself : sortByTs ((build_3m_series cs).map (fun e => Candle.mk e.bucket_start e.close3))
      = (build_3m_series cs).map (fun e => Candle.mk e.bucket_start e.close3) := by
    apply sorted_nodupTs_eq _ _ (sortByTs_perm _) (sortByTs_sorted _) hsorted2
    exact (((sortByTs_perm _).map _).nodup_iff).mpr hnd2
  rw [hself, List.map_map]
  rw [show ((fun c : Candle => (⟨c.timestamp, c.close⟩ : MicroHighCandidate))
      ∘ fun e : MicroHighCandidate => Candle.mk e.bucket_start e.close3)
      = fun e : MicroHighCandidate => e from rfl]
  exact List.map_id _

/-- C6: for every list of candles with pairwise-distinct timestamps, the
3-minute bucketizer is deterministic and invariant under permutation of its
input; each candle is assigned to the bucket keyed by its timestamp floored to
the 3-minute boundary; buckets are emitted in strictly ascending start-time
order; each bucket's close is the close of its chronologically last member;
and the bucketizer is idempotent on 3-minute-aligned input (it returns exactly
the time-sorted input, so re-bucketizing its own output changes nothing). -/
theorem bucketizer_properties (cs cs' : List Candle) (hperm : cs.Perm cs')
    (hnd : (cs.map (fun c => c.timestamp)).Nodup) :
    build_3m_series cs = build_3m_series cs'
    ∧ (∀ c ∈ cs, c ∈ bucketMembers cs (floor_to_3m c.timestamp))
    ∧ List.Sorted (· < ·) ((build_3m_series cs).map (fun e => e.bucket_start))
    ∧ (∀ e ∈ build_3m_series cs, ∃ c ∈ cs,
        floor_to_3m c.timestamp = e.bucket_start ∧ e.close3 = c.close
        ∧ ∀ d ∈ cs, floor_to_3m d.timestamp = e.bucket_start → d.timestamp ≤ c.timestamp)
    ∧ ((∀ c ∈ cs, c.timestamp % 180000 = 0) →
        build_3m_series cs
          = (sortByTs cs).map (fun c => (⟨c.timestamp, c.close⟩ : MicroHighCandidate)))
    ∧ build_3m_series ((build_3m_series cs).map (fun e => Candle.mk e.bucket_start e.close3))
        = build_3m_series cs := by
  refine ⟨build_perm_eq hperm hnd, ?_, ?_, ?_,
    fun hal => build_aligned_eq cs hnd hal, build_idem cs⟩
  · intro c hc
    exact mem_bucketMembers.mpr ⟨hc, rfl⟩
  · rw [build_map_bucket_start]
    exact bucketKeys_strict cs
  · intro e he
    rw [build_3m_series] at he
    obtain ⟨b, hb, heq⟩ := List.mem_map.mp he
    subst heq
    have hne : bucketMembers cs b ≠ [] := bucketMembers_ne_nil hb
    have hsne : sortByTs (bucketMembers cs b) ≠ [] := by
      intro h0
      have hp0 := sortByTs_perm (bucketMembers cs b)
      rw [h0] at hp0
      exact hne (List.Perm.eq_nil hp0.symm)
    have hlast := getLastD_mem (sortByTs (bucketMembers cs b)) dummyCandle hsne
    have hge := getLastD_ts_ge (sortByTs (bucketMembers cs b)) dummyCandle (sortByTs_sorted _)
    obtain ⟨hcin, hcfl⟩ := mem_bucketMembers.mp (mem_sortByTs.mp hlast)
    refine ⟨(sortByTs (bucketMembers cs b)).getLastD dummyCandle, hcin, hcfl, rfl, ?_⟩
    intro d hd hdf
    exact hge _ (mem_sortByTs.mpr (mem_bucketMembers.mpr ⟨hd, hdf⟩))

/-- Witness for C6: all hypotheses hold at a concrete two-candle list and its
reversal, and the theorem applies there. -/
theorem bucketizer_properties_witness :
    ([⟨0, 1⟩, ⟨200000, 2⟩] : List Candle).Perm [⟨200000, 2⟩, ⟨0, 1⟩]
    ∧ (([⟨0, 1⟩, ⟨200000, 2⟩] : List Candle).map (fun c => c.timestamp)).Nodup
    ∧ build_3m_series [⟨0, 1⟩, ⟨200000, 2⟩] = build_3m_series [⟨200000, 2⟩, ⟨0, 1⟩] :=
  ⟨by decide, by decide,
    (bucketizer_properties [⟨0, 1⟩, ⟨200000, 2⟩] [⟨200000, 2⟩, ⟨0, 1⟩]
      (by decide) (by decide)).1⟩

/-- C8: when no input candle's timestamp lies within `[window_start,
window_end]`, `compute_micro_highs` returns every extremum field absent and a
notes list holding exactly the note "no candles in window". -/
theorem compute_micro_highs_empty_window (cs : List Candle) (ws we : Int)
    (la : Nat) (pct : ℚ)
    (h : ∀ c ∈ cs, ¬(ws ≤ c.timestamp ∧ c.timestamp ≤ we)) :
    compute_micro_highs cs ws we la pct
      = ⟨none, none, none, none, none, none, none, none, ["no candles in window"]⟩ := by
  have hf : cs.filter (fun c => decide (ws ≤ c.timestamp ∧ c.timestamp ≤ we)) = [] := by
    rw [List.filter_eq_nil_iff]
    intro c hc
    simpa using h c hc
  unfold compute_micro_highs
  rw [hf]
  rfl

/-- Witness for C8 at a one-candle list lying outside the window. -/
theorem compute_micro_highs_empty_window_witness :
    (∀ c ∈ ([⟨200000, 5⟩] : List Candle), ¬((0 : Int) ≤ c.timestamp ∧ c.timestamp ≤ 100000))
    ∧ compute_micro_highs [⟨200000, 5⟩] 0 100000 4 0
      = ⟨none, none, none, none, none, none, none, none, ["no candles in window"]⟩ :=
  ⟨by decide, compute_micro_highs_empty_window _ _ _ _ _ (by decide)⟩

/-- C2: at any probe of the launch-time search, if the fetched data for the
window `[cursor, window_end)` is non-empty and its maximum timestamp exceeds
`window_end + 2*interval_ms`, the search returns absent immediately after that
single probe — even when some returned timestamps would otherwise qualify as a
launch time. -/
theorem fft_sanity_aborts (fetch : Int → Int → Nat → List Int)
    (start_ts interval search_end : Int) (lim : Nat) (fuel : Nat)
    (cursor window maxw : Int)
    (hcur : cursor < search_end)
    (hne : fetch cursor (min (cursor + window) search_end) lim ≠ [])
    (hmax : listMax (fetch cursor (min (cursor + window) search_end) lim)
      > min (cursor + window) search_end + 2 * interval) :
    fftLoop fetch start_ts interval search_end lim (fuel + 1) cursor window maxw
      = (none, 1) := by
  simp only [fftLoop]
  rw [if_pos hcur, if_pos ⟨hne, hmax⟩]

/-- Witness for C2: a source answering with a far-future timestamp alongside a
qualifying one makes the search abort after one probe. -/
theorem fft_sanity_aborts_witness :
    ((0 : Int) < 604800000)
    ∧ ((fun _ _ _ => [0, 1000000000]) (0 : Int) (min ((0 : Int) + 7200000) 604800000) 1000
        ≠ ([] : List Int))
    ∧ listMax ((fun _ _ _ => [0, 1000000000]) (0 : Int) (min ((0 : Int) + 7200000) 604800000) 1000)
        > min ((0 : Int) + 7200000) 604800000 + 2 * 60000
    ∧ fftLoop (fun _ _ _ => [0, 1000000000]) 0 60000 604800000 1000 1 0 7200000 57600000
        = (none, 1) :=
  ⟨by decide, by decide, by decide,
    fft_sanity_aborts (fun _ _ _ => [0, 1000000000]) 0 60000 604800000 1000 0 0 7200000
      57600000 (by decide) (by decide) (by decide)⟩

/-! Helper lemmas about the micro-high detector. -/

lemma withPullbacks_core : ∀ (l : List ConfirmedMicroHigh) (cs : List Candle) (we : Int),
    (withPullbacks cs we l).map
      (fun e => (e.bucket_start, e.close3, e.micro_high_close, e.micro_high_time))
    = l.map (fun e => (e.bucket_start, e.close3, e.micro_high_close, e.micro_high_time)) := by
  intro l
  induction l with
  | nil => intro cs we; rfl
  | cons mh rest ih =>
    intro cs we
    simp only [withPullbacks, List.map_cons]
    rw [ih]
    congr 1
    split
    · rfl
    · rfl

lemma mem_withPullbacks_core {cs : List Candle} {we : Int}
    {l : List ConfirmedMicroHigh} {e' : ConfirmedMicroHigh}
    (h : e' ∈ withPullbacks cs we l) :
    ∃ e ∈ l, e.bucket_start = e'.bucket_start ∧ e.close3 = e'.close3
      ∧ e.micro_high_close = e'.micro_high_close
      ∧ e.micro_high_time = e'.micro_high_time := by
  have hm := List.mem_map_of_mem
    (fun e : ConfirmedMicroHigh =>
      (e.bucket_start, e.close3, e.micro_high_close, e.micro_high_time)) h
  rw [withPullbacks_core] at hm
  obtain ⟨e, he, heq⟩ := List.mem_map.mp hm
  rw [Prod.ext_iff, Prod.ext_iff, Prod.ext_iff] at heq
  exact ⟨e, he, heq.1, heq.2.1, heq.2.2.1, heq.2.2.2⟩

lemma withPullbacks_mem_exists {cs : List Candle} {we : Int}
    {l : List ConfirmedMicroHigh} {e : ConfirmedMicroHigh} (h : e ∈ l) :
    ∃ e' ∈ withPullbacks cs we l, e'.bucket_start = e.bucket_start
      ∧ e'.close3 = e.close3 ∧ e'.micro_high_close = e.micro_high_close
      ∧ e'.micro_high_time = e.micro_high_time := by
  have hm := List.mem_map_of_mem
    (fun e : ConfirmedMicroHigh =>
      (e.bucket_start, e.close3, e.micro_high_close, e.micro_high_time)) h
  rw [← withPullbacks_core l cs we] at hm
  obtain ⟨e', he', heq⟩ := List.mem_map.mp hm
  rw [Prod.ext_iff, Prod.ext_iff, Prod.ext_iff] at heq
  exact ⟨e', he', heq.1, heq.2.1, heq.2.2.1, heq.2.2.2⟩

lemma microEntryAt_some {series : List MicroHighCandidate} {cs : List Candle}
    {la : Nat} {pct : ℚ} {idx : Nat} {e : ConfirmedMicroHigh}
    (h : microEntryAt series cs la pct idx = some e) :
    e.bucket_start = (series.getD idx dummyMC).bucket_start
    ∧ e.close3 = (series.getD idx dummyMC).close3
    ∧ ((series.getD (idx - 1) dummyMC).close3 < (series.getD idx dummyMC).close3
       ∧ (series.getD (idx + 1) dummyMC).close3 ≤ (series.getD idx dummyMC).close3)
    ∧ ((series.drop (idx + 1)).take la).any
        (fun f => decide (f.close3 < (series.getD idx dummyMC).close3 * (1 - pct))) = true
    ∧ ∃ c ∈ bucketMembers cs (series.getD idx dummyMC).bucket_start,
        e.micro_high_close = c.close ∧ e.micro_high_time = c.timestamp
        ∧ ∀ d ∈ bucketMembers cs (series.getD idx dummyMC).bucket_start,
            d.close ≤ c.close := by
  simp only [microEntryAt] at h
  by_cases h1 : (series.getD (idx - 1) dummyMC).close3 < (series.getD idx dummyMC).close3
      ∧ (series.getD (idx + 1) dummyMC).close3 ≤ (series.getD idx dummyMC).close3
  · rw [if_pos h1] at h
    by_cases h2 : ((series.drop (idx + 1)).take la).any
        (fun f => decide (f.close3 < (series.getD idx dummyMC).close3 * (1 - pct))) = true
    · rw [if_pos h2] at h
      cases hbm : bucketMembers cs (series.getD idx dummyMC).bucket_start with
      | nil => rw [hbm] at h; cases h
      | cons c cs' =>
        rw [hbm] at h
        injection h with h
        subst h
        refine ⟨rfl, rfl, h1, h2, pyFoldMax (fun d => d.close) c cs', ?_, rfl, rfl, ?_⟩
        · exact pyFoldMax_mem_cons _ c cs'
        · intro d hd
          exact pyFoldMax_le_all _ c cs' d hd
    · rw [if_neg h2] at h; cases h
  · rw [if_neg h1] at h; cases h

lemma microEntryAt_eq_some_of (series : List MicroHighCandidate) (cs : List Candle)
    (la : Nat) (pct : ℚ) (idx : Nat)
    (h1 : (series.getD (idx - 1) dummyMC).close3 < (series.getD idx dummyMC).close3)
    (h2 : (series.getD (idx + 1) dummyMC).close3 ≤ (series.getD idx dummyMC).close3)
    (h3 : ((series.drop (idx + 1)).take la).any
        (fun f => decide (f.close3 < (series.getD idx dummyMC).close3 * (1 - pct))) = true)
    (h4 : bucketMembers cs (series.getD idx dummyMC).bucket_start ≠ []) :
    ∃ e, microEntryAt series cs la pct idx = some e
      ∧ e.bucket_start = (series.getD idx dummyMC).bucket_start := by
  simp only [microEntryAt]
  rw [if_pos ⟨h1, h2⟩, if_pos h3]
  cases hbm : bucketMembers cs (series.getD idx dummyMC).bucket_start with
  | nil => exact absurd hbm h4
  | cons c cs' => exact ⟨_, rfl, rfl⟩

lemma mem_confirmedFirstPass {series : List MicroHighCandidate} {cs : List Candle}
    {la : Nat} {pct : ℚ} {e : ConfirmedMicroHigh} :
    e ∈ confirmedFirstPass series cs la pct ↔
      ∃ idx, 1 ≤ idx ∧ idx + 1 < series.length
        ∧ microEntryAt series cs la pct idx = some e := by
  unfold confirmedFirstPass
  rw [List.mem_filterMap]
  constructor
  · rintro ⟨idx, hidx, hme⟩
    rw [List.mem_range'_1] at hidx
    exact ⟨idx, hidx.1, by omega, hme⟩
  · rintro ⟨idx, hge, hlt, hme⟩
    exact ⟨idx, List.mem_range'_1.mpr ⟨hge, by omega⟩, hme⟩

lemma any_take_drop_iff (l : List MicroHighCandidate) (a n : Nat)
    (p : MicroHighCandidate → Bool) :
    ((l.drop a).take n).any p = true
      ↔ ∃ j, a ≤ j ∧ j < a + n ∧ j < l.length ∧ p (l.getD j dummyMC) = true := by
  rw [List.any_eq_true]
  constructor
  · rintro ⟨x, hx, hpx⟩
    obtain ⟨k, hk⟩ := List.mem_iff_getElem?.mp hx
    rw [List.getElem?_take] at hk
    by_cases hkn : k < n
    · rw [if_pos hkn, List.getElem?_drop] at hk
      obtain ⟨hlt, hval⟩ := List.getElem?_eq_some.mp hk
      refine ⟨a + k, by omega, by omega, hlt, ?_⟩
      rw [List.getD_eq_getElem _ _ hlt, hval]
      exact hpx
    · rw [if_neg hkn] at hk; cases hk
  · rintro ⟨j, hj1, hj2, hj3, hpj⟩
    refine ⟨l.getD j dummyMC, ?_, hpj⟩
    rw [List.mem_iff_getElem?]
    refine ⟨j - a, ?_⟩
    rw [List.getElem?_take, if_pos (by omega : j - a < n), List.getElem?_drop]
    rw [List.getD_eq_getElem _ _ hj3]
    rw [show a + (j - a) = j from by omega]
    exact List.getElem?_eq_some.mpr ⟨hj3, rfl⟩

lemma build_getD_bucket_start_inj (cs : List Candle) {i j : Nat}
    (hi : i < (build_3m_series cs).length) (hj : j < (build_3m_series cs).length)
    (heq : ((build_3m_series cs).getD i dummyMC).bucket_start
      = ((build_3m_series cs).getD j dummyMC).bucket_start) : i = j := by
  have hstrict := bucketKeys_strict cs
  rw [← build_map_bucket_start] at hstrict
  rw [List.Sorted, List.pairwise_map, List.pairwise_iff_getElem] at hstrict
  rw [List.getD_eq_getElem _ _ hi, List.getD_eq_getElem _ _ hj] at heq
  by_contra hne
  rcases Nat.lt_or_ge i j with h | h
  · exact absurd heq (ne_of_lt (hstrict i j hi hj h))
  · have hji : j < i := by omega
    exact absurd heq.symm (ne_of_lt (hstrict j i hj hi hji))

lemma build_getD_bucket_start_mem (cs : List Candle) {i : Nat}
    (hi : i < (build_3m_series cs).length) :
    ((build_3m_series cs).getD i dummyMC).bucket_start ∈ bucketKeys cs := by
  rw [← build_map_bucket_start, List.getD_eq_getElem _ _ hi]
  exact List.mem_map_of_mem _ (List.getElem_mem hi)

/-- C3: in the bucket series produced by the detector, an interior index
appears (by bucket start) in the confirmed micro-high list exactly when its
close strictly exceeds the previous bucket's close, is at least the next
bucket's close, and one of the next `lookahead_bars` buckets closes below
`close * (1 - min_pullback_pct)`; no candidate lacking such a qualifying
future bucket ever appears. -/
theorem micro_high_confirmed_iff (cs : List Candle) (we : Int) (la : Nat) (pct : ℚ)
    (i : Nat) (h1 : 1 ≤ i) (h2 : i + 1 < (build_3m_series cs).length) :
    (∃ e ∈ confirmed_micro_highs (build_3m_series cs) cs we la pct,
        e.bucket_start = ((build_3m_series cs).getD i dummyMC).bucket_start)
    ↔ (((build_3m_series cs).getD (i - 1) dummyMC).close3
          < ((build_3m_series cs).getD i dummyMC).close3
       ∧ ((build_3m_series cs).getD (i + 1) dummyMC).close3
          ≤ ((build_3m_series cs).getD i dummyMC).close3
       ∧ ∃ j, i + 1 ≤ j ∧ j < i + 1 + la ∧ j < (build_3m_series cs).length
           ∧ ((build_3m_series cs).getD j dummyMC).close3
             < ((build_3m_series cs).getD i dummyMC).close3 * (1 - pct)) := by
  constructor
  · rintro ⟨e, he, heq⟩
    rw [confirmed_micro_highs] at he
    obtain ⟨e₁, he₁, hbs, _, _, _⟩ := mem_withPullbacks_core he
    obtain ⟨idx, hix1, hix2, hme⟩ := mem_confirmedFirstPass.mp he₁
    obtain ⟨hbs', _, ⟨hc1, hc2⟩, hany, _⟩ := microEntryAt_some hme
    have hii : idx = i := by
      apply build_getD_bucket_start_inj cs (by omega) (by omega)
      rw [← hbs', hbs, heq]
    subst hii
    refine ⟨hc1, hc2, ?_⟩
    obtain ⟨j, hj1, hj2, hj3, hpj⟩ := (any_take_drop_iff _ _ _ _).mp hany
    rw [decide_eq_true_eq] at hpj
    refine ⟨j, hj1, ?_, hj3, hpj⟩
    omega
  · rintro ⟨hc1, hc2, j, hj1, hj2, hj3, hlt⟩
    have hany : (((build_3m_series cs).drop (i + 1)).take la).any
        (fun f => decide (f.close3
          < ((build_3m_series cs).getD i dummyMC).close3 * (1 - pct))) = true := by
      rw [any_take_drop_iff]
      exact ⟨j, hj1, by omega, hj3, decide_eq_true hlt⟩
    have hne := bucketMembers_ne_nil (build_getD_bucket_start_mem cs
      (show i < (build_3m_series cs).length by omega))
    obtain ⟨e₁, hme, hbs⟩ :=
      microEntryAt_eq_some_of (build_3m_series cs) cs la pct i hc1 hc2 hany hne
    have he₁ : e₁ ∈ confirmedFirstPass (build_3m_series cs) cs la pct :=
      mem_confirmedFirstPass.mpr ⟨i, h1, h2, hme⟩
    obtain ⟨e, he, hbs2, _, _, _⟩ := withPullbacks_mem_exists he₁
    refine ⟨e, ?_, by rw [hbs2, hbs]⟩
    rw [confirmed_micro_highs]
    exact he

/-- Witness for C3 at a four-bucket series with closes 1, 3, 2, 0 and interior
index 1 (a confirmed micro high). -/
theorem micro_high_confirmed_iff_witness :
    (1 : Nat) ≤ 1
    ∧ 1 + 1 < (build_3m_series [⟨0, 1⟩, ⟨180000, 3⟩, ⟨360000, 2⟩, ⟨540000, 0⟩]).length
    ∧ (∃ e ∈ confirmed_micro_highs
          (build_3m_series [⟨0, 1⟩, ⟨180000, 3⟩, ⟨360000, 2⟩, ⟨540000, 0⟩])
          [⟨0, 1⟩, ⟨180000, 3⟩, ⟨360000, 2⟩, ⟨540000, 0⟩] 1000000 4 0,
        e.bucket_start = ((build_3m_series
          [⟨0, 1⟩, ⟨180000, 3⟩, ⟨360000, 2⟩, ⟨540000, 0⟩]).getD 1 dummyMC).bucket_start) :=
  ⟨by decide, by decide,
    (micro_high_confirmed_iff [⟨0, 1⟩, ⟨180000, 3⟩, ⟨360000, 2⟩, ⟨540000, 0⟩]
        1000000 4 0 1 (by decide) (by decide)).mpr
      ⟨by decide, by decide, 2, by decide, by decide, by decide, by
        rw [show ((build_3m_series
              [⟨0, 1⟩, ⟨180000, 3⟩, ⟨360000, 2⟩, ⟨540000, 0⟩]).getD 2 dummyMC).close3
            = 2 from by decide,
          show ((build_3m_series
              [⟨0, 1⟩, ⟨180000, 3⟩, ⟨360000, 2⟩, ⟨540000, 0⟩]).getD 1 dummyMC).close3
            = 3 from by decide]
        norm_num⟩⟩

/-- C7: every confirmed micro high reports as its exact-high close and time a
maximum-close candle among the original candles belonging to its bucket, and
that timestamp always lies within `[bucket_start, bucket_start + 3min)`. -/
theorem confirmed_micro_high_drilldown (cs : List Candle) (we : Int) (la : Nat)
    (pct : ℚ) (e : ConfirmedMicroHigh)
    (he : e ∈ confirmed_micro_highs (build_3m_series cs) cs we la pct) :
    (∃ c ∈ bucketMembers cs e.bucket_start,
        e.micro_high_time = c.timestamp ∧ e.micro_high_close = c.close
        ∧ ∀ d ∈ bucketMembers cs e.bucket_start, d.close ≤ c.close)
    ∧ e.bucket_start ≤ e.micro_high_time
    ∧ e.micro_high_time < e.bucket_start + 180000 := by
  rw [confirmed_micro_highs] at he
  obtain ⟨e₁, he₁, hbs, _, hmc, hmt⟩ := mem_withPullbacks_core he
  obtain ⟨idx, _, _, hme⟩ := mem_confirmedFirstPass.mp he₁
  obtain ⟨hbs', _, _, _, c, hcmem, hcc, hct, hmax⟩ := microEntryAt_some hme
  have hkey : ((build_3m_series cs).getD idx dummyMC).bucket_start = e.bucket_start :=
    hbs'.symm.trans hbs
  rw [hkey] at hcmem hmax
  obtain ⟨_, hfl⟩ := mem_bucketMembers.mp hcmem
  have hte : e.micro_high_time = c.timestamp := hmt.symm.trans hct
  have hce : e.micro_high_close = c.close := hmc.symm.trans hcc
  refine ⟨⟨c, hcmem, hte, hce, hmax⟩, ?_, ?_⟩
  · rw [hte, ← hfl]
    exact floor_to_3m_le c.timestamp
  · rw [hte, ← hfl]
    exact lt_floor_to_3m_add c.timestamp

/-- Window candle list used by the C7 witness: a three-candle bucket whose
interior peak (close 10) exceeds its bucket close (3). -/
def c7L : List Candle :=
  [⟨0, 1⟩, ⟨180000, 3⟩, ⟨240000, 10⟩, ⟨300000, 3⟩, ⟨360000, 2⟩, ⟨540000, 0⟩]

/-- Witness for C7: a concrete confirmed micro high exists for `c7L` and the
theorem applies to it. -/
theorem confirmed_micro_high_drilldown_witness :
    ∃ e ∈ confirmed_micro_highs (build_3m_series c7L) c7L 1000000 4 0,
      (∃ c ∈ bucketMembers c7L e.bucket_start,
          e.micro_high_time = c.timestamp ∧ e.micro_high_close = c.close
          ∧ ∀ d ∈ bucketMembers c7L e.bucket_start, d.close ≤ c.close)
      ∧ e.bucket_start ≤ e.micro_high_time
      ∧ e.micro_high_time < e.bucket_start + 180000 := by
  have hany : (((build_3m_series c7L).drop (1 + 1)).take 4).any
      (fun f => decide (f.close3
        < ((build_3m_series c7L).getD 1 dummyMC).close3 * (1 - 0))) = true := by
    rw [any_take_drop_iff]
    refine ⟨2, by decide, by decide, by decide, ?_⟩
    rw [decide_eq_true_eq]
    rw [show ((build_3m_series c7L).getD 2 dummyMC).close3 = 2 from by decide,
      show ((build_3m_series c7L).getD 1 dummyMC).close3 = 3 from by decide]
    norm_num
  obtain ⟨e₁, hme, _⟩ := microEntryAt_eq_some_of (build_3m_series c7L) c7L 4 0 1
    (by decide) (by decide) hany (by decide)
  have he₁ : e₁ ∈ confirmedFirstPass (build_3m_series c7L) c7L 4 0 :=
    mem_confirmedFirstPass.mpr ⟨1, le_refl 1, by decide, hme⟩
  obtain ⟨e, he, _, _, _, _⟩ := @withPullbacks_mem_exists c7L 1000000 _ _ he₁
  have he' : e ∈ confirmed_micro_highs (build_3m_series c7L) c7L 1000000 4 0 := by
    rw [confirmed_micro_highs]
    exact he
  exact ⟨e, he', confirmed_micro_high_drilldown c7L 1000000 4 0 e he'⟩

/-- C10 counterexample: the empty candle list spans zero (hence fewer than
three) distinct 3-minute buckets, yet the result's notes say "no candles in
window" rather than "no confirmed micro highs", and the global-max fields are
not populated. -/
theorem few_buckets_counterexample :
    (bucketKeys ([] : List Candle)).length < 3
    ∧ compute_micro_highs ([] : List Candle) 0 60000 4 0
        = ⟨none, none, none, none, none, none, none, none, ["no candles in window"]⟩
    ∧ "no confirmed micro highs" ∉ (compute_micro_highs ([] : List Candle) 0 60000 4 0).notes
    ∧ (compute_micro_highs ([] : List Candle) 0 60000 4 0).max_price_2_close = none := by
  refine ⟨by decide, by decide, by decide, by decide⟩

/-- C10 (amended): for every input whose reaction window holds at least one
candle but spans fewer than three distinct 3-minute buckets, no micro high is
confirmed: the four micro-high fields are absent, the notes contain "no
confirmed micro highs", and the global-max fields are populated. -/
theorem few_buckets_no_micro_high (cs : List Candle) (ws we : Int) (la : Nat) (pct : ℚ)
    (hne : ∃ c ∈ cs, ws ≤ c.timestamp ∧ c.timestamp ≤ we)
    (hfew : (bucketKeys (cs.filter
        (fun c => decide (ws ≤ c.timestamp ∧ c.timestamp ≤ we)))).length < 3) :
    (compute_micro_highs cs ws we la pct).max_price_1_close = none
    ∧ (compute_micro_highs cs ws we la pct).max_price_1_time = none
    ∧ (compute_micro_highs cs ws we la pct).lowest_after_1_close = none
    ∧ (compute_micro_highs cs ws we la pct).lowest_after_1_time = none
    ∧ "no confirmed micro highs" ∈ (compute_micro_highs cs ws we la pct).notes
    ∧ (compute_micro_highs cs ws we la pct).max_price_2_close.isSome = true
    ∧ (compute_micro_highs cs ws we la pct).max_price_2_time.isSome = true := by
  obtain ⟨c0, hc0, hcw⟩ := hne
  have hmem : c0 ∈ sortByTs (cs.filter
      (fun c => decide (ws ≤ c.timestamp ∧ c.timestamp ≤ we))) := by
    rw [mem_sortByTs, List.mem_filter]
    exact ⟨hc0, by simpa using hcw⟩
  cases hF : sortByTs (cs.filter
      (fun c => decide (ws ≤ c.timestamp ∧ c.timestamp ≤ we))) with
  | nil => rw [hF] at hmem; cases hmem
  | cons f fs =>
    have hser : (build_3m_series (f :: fs)).length < 3 := by
      rw [build_length, ← hF, bucketKeys_perm_eq (sortByTs_perm _)]
      exact hfew
    have hconf : confirmed_micro_highs (build_3m_series (f :: fs)) (f :: fs)
        we la pct = [] := by
      rw [confirmed_micro_highs]
      have hfp : confirmedFirstPass (build_3m_series (f :: fs)) (f :: fs) la pct = [] := by
        unfold confirmedFirstPass
        rw [show (build_3m_series (f :: fs)).length - 2 = 0 from by omega]
        rfl
      rw [hfp]
      rfl
    unfold compute_micro_highs
    rw [hF]
    simp only [hconf]
    refine ⟨trivial, trivial, trivial, trivial, ?_, rfl, rfl⟩
    exact List.mem_append_right _ (by simp)

/-- Witness for C10 (amended) at a two-candle, one-bucket window. -/
theorem few_buckets_no_micro_high_witness :
    (∃ c ∈ ([⟨0, 1⟩, ⟨60000, 2⟩] : List Candle),
      (0 : Int) ≤ c.timestamp ∧ c.timestamp ≤ 600000)
    ∧ (bucketKeys (([⟨0, 1⟩, ⟨60000, 2⟩] : List Candle).filter
        (fun c => decide ((0 : Int) ≤ c.timestamp ∧ c.timestamp ≤ 600000)))).length < 3
    ∧ "no confirmed micro highs"
        ∈ (compute_micro_highs [⟨0, 1⟩, ⟨60000, 2⟩] 0 600000 4 0).notes
    ∧ (compute_micro_highs [⟨0, 1⟩, ⟨60000, 2⟩] 0 600000 4 0).max_price_2_close.isSome
        = true :=
  ⟨by decide, by decide,
    (few_buckets_no_micro_high [⟨0, 1⟩, ⟨60000, 2⟩] 0 600000 4 0
      (by decide) (by decide)).2.2.2.2.1,
    (few_buckets_no_micro_high [⟨0, 1⟩, ⟨60000, 2⟩] 0 600000 4 0
      (by decide) (by decide)).2.2.2.2.2.1⟩

/-! Helper lemmas for the global extremum pass (C4). -/

lemma micro_global_max_pass (cs : List Candle) (ws we : Int) (la : Nat) (pct : ℚ)
    (h1 : ∃ c ∈ cs, ws ≤ c.timestamp ∧ c.timestamp ≤ we) :
    ∃ hc ∈ cs, (ws ≤ hc.timestamp ∧ hc.timestamp ≤ we)
      ∧ (compute_micro_highs cs ws we la pct).max_price_2_close = some hc.close
      ∧ (compute_micro_highs cs ws we la pct).max_price_2_time = some hc.timestamp
      ∧ (∀ d ∈ cs, ws ≤ d.timestamp → d.timestamp ≤ we → d.close ≤ hc.close)
      ∧ ((∃ d ∈ cs, (ws ≤ d.timestamp ∧ d.timestamp ≤ we) ∧ hc.timestamp < d.timestamp) →
          ∃ ld ∈ cs, (ws ≤ ld.timestamp ∧ ld.timestamp ≤ we) ∧ hc.timestamp < ld.timestamp
            ∧ (compute_micro_highs cs ws we la pct).lowest_after_2_close = some ld.close
            ∧ (compute_micro_highs cs ws we la pct).lowest_after_2_time = some ld.timestamp
            ∧ ∀ d ∈ cs, ws ≤ d.timestamp → d.timestamp ≤ we →
                hc.timestamp < d.timestamp → ld.close ≤ d.close)
      ∧ ((¬ ∃ d ∈ cs, (ws ≤ d.timestamp ∧ d.timestamp ≤ we) ∧ hc.timestamp < d.timestamp) →
          (compute_micro_highs cs ws we la pct).lowest_after_2_close = none
          ∧ (compute_micro_highs cs ws we la pct).lowest_after_2_time = none
          ∧ "max price #2 at end of window" ∈ (compute_micro_highs cs ws we la pct).notes) := by
  obtain ⟨cw, hcw1, hcw2⟩ := h1
  have hmemw : cw ∈ sortByTs (cs.filter
      (fun c => decide (ws ≤ c.timestamp ∧ c.timestamp ≤ we))) := by
    rw [mem_sortByTs, List.mem_filter]
    exact ⟨hcw1, by simpa using hcw2⟩
  cases hF : sortByTs (cs.filter (fun c => decide (ws ≤ c.timestamp ∧ c.timestamp ≤ we))) with
  | nil => rw [hF] at hmemw; cases hmemw
  | cons f fs =>
    have hiff : ∀ c : Candle,
        c ∈ f :: fs ↔ c ∈ cs ∧ (ws ≤ c.timestamp ∧ c.timestamp ≤ we) := by
      intro c
      rw [← hF, mem_sortByTs, List.mem_filter]
      simp only [decide_eq_true_eq]
    obtain ⟨hhm, hhw⟩ := (hiff (pyFoldMax (fun c => c.close) f fs)).mp
      (pyFoldMax_mem_cons (fun c => c.close) f fs)
    have hmax : ∀ d ∈ cs, ws ≤ d.timestamp → d.timestamp ≤ we →
        d.close ≤ (pyFoldMax (fun c => c.close) f fs).close := by
      intro d hd hd1 hd2
      exact pyFoldMax_le_all (fun c => c.close) f fs d ((hiff d).mpr ⟨hd, hd1, hd2⟩)
    refine ⟨pyFoldMax (fun c => c.close) f fs, hhm, hhw, ?_⟩
    cases hC : confirmed_micro_highs (build_3m_series (f :: fs)) (f :: fs) we la pct with
    | nil =>
      cases hA : (f :: fs).filter
          (fun c => decide ((pyFoldMax (fun c => c.close) f fs).timestamp < c.timestamp)) with
      | nil =>
        have hres : compute_micro_highs cs ws we la pct =
            ⟨none, none, none, none,
              some (pyFoldMax (fun c => c.close) f fs).close,
              some (pyFoldMax (fun c => c.close) f fs).timestamp,
              none, none,
              ["max price #2 at end of window", "no confirmed micro highs"]⟩ := by
          unfold compute_micro_highs
          rw [hF]
          simp only [hA, hC]
          rfl
        have hnone : ¬ ∃ d ∈ cs, (ws ≤ d.timestamp ∧ d.timestamp ≤ we)
            ∧ (pyFoldMax (fun c => c.close) f fs).timestamp < d.timestamp := by
          rintro ⟨d, hd, hdw, hdt⟩
          have hdf : d ∈ (f :: fs).filter
              (fun c => decide ((pyFoldMax (fun c => c.close) f fs).timestamp
                < c.timestamp)) := by
            rw [List.mem_filter]
            exact ⟨(hiff d).mpr ⟨hd, hdw⟩, by simpa using hdt⟩
          rw [hA] at hdf
          cases hdf
        refine ⟨by rw [hres], by rw [hres], hmax, ?_, ?_⟩
        · intro hex
          exact absurd hex hnone
        · intro _
          rw [hres]
          exact ⟨rfl, rfl, by simp⟩
      | cons a as' =>
        have hres : compute_micro_highs cs ws we la pct =
            ⟨none, none, none, none,
              some (pyFoldMax (fun c => c.close) f fs).close,
              some (pyFoldMax (fun c => c.close) f fs).timestamp,
              some (pyFoldMin (fun c => c.close) a as').close,
              some (pyFoldMin (fun c => c.close) a as').timestamp,
              ["no confirmed micro highs"]⟩ := by
          unfold compute_micro_highs
          rw [hF]
          simp only [hA, hC]
          rfl
        have hsome : ∃ d ∈ cs, (ws ≤ d.timestamp ∧ d.timestamp ≤ we)
            ∧ (pyFoldMax (fun c => c.close) f fs).timestamp < d.timestamp := by
          have ham : a ∈ (f :: fs).filter
              (fun c => decide ((pyFoldMax (fun c => c.close) f fs).timestamp
                < c.timestamp)) := by
            rw [hA]
            exact List.mem_cons_self a as'
          obtain ⟨ham1, ham2⟩ := List.mem_filter.mp ham
          obtain ⟨ha1, ha2⟩ := (hiff a).mp ham1
          exact ⟨a, ha1, ha2, by simpa using ham2⟩
        have hldm : pyFoldMin (fun c => c.close) a as' ∈ (f :: fs).filter
            (fun c => decide ((pyFoldMax (fun c => c.close) f fs).timestamp
              < c.timestamp)) := by
          rw [hA]
          exact pyFoldMin_mem_cons (fun c => c.close) a as'
        obtain ⟨hld1, hld2⟩ := List.mem_filter.mp hldm
        obtain ⟨hld3, hld4⟩ := (hiff _).mp hld1
        refine ⟨by rw [hres], by rw [hres], hmax, ?_, ?_⟩
        · intro _
          refine ⟨pyFoldMin (fun c => c.close) a as', hld3, hld4, by simpa using hld2,
            by rw [hres], by rw [hres], ?_⟩
          intro d hd hd1 hd2 hd3
          have hdf : d ∈ (f :: fs).filter
              (fun c => decide ((pyFoldMax (fun c => c.close) f fs).timestamp
                < c.timestamp)) := by
            rw [List.mem_filter]
            exact ⟨(hiff d).mpr ⟨hd, hd1, hd2⟩, by simpa using hd3⟩
          rw [hA] at hdf
          exact pyFoldMin_le_all (fun c => c.close) a as' d hdf
        · intro hno
          exact absurd hsome hno
    | cons c0 crest =>
      cases hA : (f :: fs).filter
          (fun c => decide ((pyFoldMax (fun c => c.close) f fs).timestamp < c.timestamp)) with
      | nil =>
        have hres : compute_micro_highs cs ws we la pct =
            ⟨some (pyFoldMaxOpt (fun c => c.pullback_size) c0 crest).micro_high_close,
              some (pyFoldMaxOpt (fun c => c.pullback_size) c0 crest).micro_high_time,
              (pyFoldMaxOpt (fun c => c.pullback_size) c0 crest).pullback_low_close,
              (pyFoldMaxOpt (fun c => c.pullback_size) c0 crest).pullback_low_time,
              some (pyFoldMax (fun c => c.close) f fs).close,
              some (pyFoldMax (fun c => c.close) f fs).timestamp,
              none, none,
              ["max price #2 at end of window"]⟩ := by
          unfold compute_micro_highs
          rw [hF]
          simp only [hA, hC]
        have hnone : ¬ ∃ d ∈ cs, (ws ≤ d.timestamp ∧ d.timestamp ≤ we)
            ∧ (pyFoldMax (fun c => c.close) f fs).timestamp < d.timestamp := by
          rintro ⟨d, hd, hdw, hdt⟩
          have hdf : d ∈ (f :: fs).filter
              (fun c => decide ((pyFoldMax (fun c => c.close) f fs).timestamp
                < c.timestamp)) := by
            rw [List.mem_filter]
            exact ⟨(hiff d).mpr ⟨hd, hdw⟩, by simpa using hdt⟩
          rw [hA] at hdf
          cases hdf
        refine ⟨by rw [hres], by rw [hres], hmax, ?_, ?_⟩
        · intro hex
          exact absurd hex hnone
        · intro _
          rw [hres]
          exact ⟨rfl, rfl, by simp⟩
      | cons a as' =>
        have hres : compute_micro_highs cs ws we la pct =
            ⟨some (pyFoldMaxOpt (fun c => c.pullback_size) c0 crest).micro_high_close,
              some (pyFoldMaxOpt (fun c => c.pullback_size) c0 crest).micro_high_time,
              (pyFoldMaxOpt (fun c => c.pullback_size) c0 crest).pullback_low_close,
              (pyFoldMaxOpt (fun c => c.pullback_size) c0 crest).pullback_low_time,
              some (pyFoldMax (fun c => c.close) f fs).close,
              some (pyFoldMax (fun c => c.close) f fs).timestamp,
              some (pyFoldMin (fun c => c.close) a as').close,
              some (pyFoldMin (fun c => c.close) a as').timestamp,
              []⟩ := by
          unfold compute_micro_highs
          rw [hF]
          simp only [hA, hC]
        have hsome : ∃ d ∈ cs, (ws ≤ d.timestamp ∧ d.timestamp ≤ we)
            ∧ (pyFoldMax (fun c => c.close) f fs).timestamp < d.timestamp := by
          have ham : a ∈ (f :: fs).filter
              (fun c => decide ((pyFoldMax (fun c => c.close) f fs).timestamp
                < c.timestamp)) := by
            rw [hA]
            exact List.mem_cons_self a as'
          obtain ⟨ham1, ham2⟩ := List.mem_filter.mp ham
          obtain ⟨ha1, ha2⟩ := (hiff a).mp ham1
          exact ⟨a, ha1, ha2, by simpa using ham2⟩
        have hldm : pyFoldMin (fun c => c.close) a as' ∈ (f :: fs).filter
            (fun c => decide ((pyFoldMax (fun c => c.close) f fs).timestamp
              < c.timestamp)) := by
          rw [hA]
          exact pyFoldMin_mem_cons (fun c => c.close) a as'
        obtain ⟨hld1, hld2⟩ := List.mem_filter.mp hldm
        obtain ⟨hld3, hld4⟩ := (hiff _).mp hld1
        refine ⟨by rw [hres], by rw [hres], hmax, ?_, ?_⟩
        · intro _
          refine ⟨pyFoldMin (fun c => c.close) a as', hld3, hld4, by simpa using hld2,
            by rw [hres], by rw [hres], ?_⟩
          intro d hd hd1 hd2 hd3
          have hdf : d ∈ (f :: fs).filter
              (fun c => decide ((pyFoldMax (fun c => c.close) f fs).timestamp
                < c.timestamp)) := by
            rw [List.mem_filter]
            exact ⟨(hiff d).mpr ⟨hd, hd1, hd2⟩, by simpa using hd3⟩
          rw [hA] at hdf
          exact pyFoldMin_le_all (fun c => c.close) a as' d hdf
        · intro hno
          exact absurd hsome hno

lemma mem_build_3m_buckets {al : List Candle} {lb : CandleBucket}
    (h : lb ∈ build_3m_buckets al) :
    lb.start_time ∈ bucketKeys al
    ∧ lb.candles = sortByTs (bucketMembers al lb.start_time) := by
  rw [build_3m_buckets] at h
  obtain ⟨k, hk, heq⟩ := List.mem_map.mp h
  subst heq
  exact ⟨hk, rfl⟩

lemma build_3m_buckets_ne_nil {al : List Candle} (h : al ≠ []) :
    build_3m_buckets al ≠ [] := by
  obtain ⟨a, ha⟩ := List.exists_mem_of_ne_nil al h
  have hk : floor_to_3m a.timestamp ∈ bucketKeys al := by
    rw [mem_bucketKeys]
    exact ⟨a, ha, rfl⟩
  intro h0
  rw [build_3m_buckets] at h0
  rw [List.map_eq_nil_iff] at h0
  rw [h0] at hk
  cases hk

lemma bucket_candles_ne_nil {al : List Candle} {lb : CandleBucket}
    (h : lb ∈ build_3m_buckets al) : lb.candles ≠ [] := by
  obtain ⟨hk, hc⟩ := mem_build_3m_buckets h
  rw [hc]
  intro h0
  have hp := sortByTs_perm (bucketMembers al lb.start_time)
  rw [h0] at hp
  exact bucketMembers_ne_nil hk (List.Perm.eq_nil hp.symm)

lemma bucket_candle_mem {al : List Candle} {lb : CandleBucket}
    (h : lb ∈ build_3m_buckets al) {p : Candle} (hp : p ∈ lb.candles) : p ∈ al := by
  obtain ⟨_, hc⟩ := mem_build_3m_buckets h
  rw [hc] at hp
  exact (mem_bucketMembers.mp (mem_sortByTs.mp hp)).1

lemma launch_extremum_high (cs2 : List Candle) (lt : Int)
    (h2 : ∃ c ∈ cs2, lt < c.timestamp ∧ c.timestamp ≤ lt + 120 * 60000) :
    ∃ hc ∈ cs2, (lt < hc.timestamp ∧ hc.timestamp ≤ lt + 120 * 60000)
      ∧ (compute_launch_highlow cs2 lt).highest_close = some hc.close
      ∧ (compute_launch_highlow cs2 lt).highest_time = some hc.timestamp
      ∧ (∀ d ∈ cs2, lt < d.timestamp → d.timestamp ≤ lt + 120 * 60000 →
          d.close ≤ hc.close)
      ∧ ((∃ d ∈ cs2, (lt < d.timestamp ∧ d.timestamp ≤ lt + 120 * 60000)
            ∧ hc.timestamp < d.timestamp) →
          ∃ p ∈ cs2, (lt < p.timestamp ∧ p.timestamp ≤ lt + 120 * 60000)
            ∧ hc.timestamp < p.timestamp
            ∧ (compute_launch_highlow cs2 lt).pullback_1_close = some p.close
            ∧ (compute_launch_highlow cs2 lt).pullback_1_time = some p.timestamp)
      ∧ ((¬ ∃ d ∈ cs2, (lt < d.timestamp ∧ d.timestamp ≤ lt + 120 * 60000)
            ∧ hc.timestamp < d.timestamp) →
          (compute_launch_highlow cs2 lt).pullback_1_close = none
          ∧ (compute_launch_highlow cs2 lt).pullback_1_time = none) := by
  obtain ⟨cw, hcw1, hcw2⟩ := h2
  have hmemw : cw ∈ sortByTs (cs2.filter
      (fun c => decide (lt < c.timestamp ∧ c.timestamp ≤ lt + 120 * 60000))) := by
    rw [mem_sortByTs, List.mem_filter]
    exact ⟨hcw1, by simpa using hcw2⟩
  cases hW : sortByTs (cs2.filter
      (fun c => decide (lt < c.timestamp ∧ c.timestamp ≤ lt + 120 * 60000))) with
  | nil => rw [hW] at hmemw; cases hmemw
  | cons w0 wr =>
    have hiff : ∀ c : Candle, c ∈ w0 :: wr
        ↔ c ∈ cs2 ∧ (lt < c.timestamp ∧ c.timestamp ≤ lt + 120 * 60000) := by
      intro c
      rw [← hW, mem_sortByTs, List.mem_filter]
      simp only [decide_eq_true_eq]
    obtain ⟨hhm, hhw⟩ := (hiff (pyFoldMax (fun c => c.close) w0 wr)).mp
      (pyFoldMax_mem_cons (fun c => c.close) w0 wr)
    have hmax : ∀ d ∈ cs2, lt < d.timestamp → d.timestamp ≤ lt + 120 * 60000 →
        d.close ≤ (pyFoldMax (fun c => c.close) w0 wr).close := by
      intro d hd hd1 hd2
      exact pyFoldMax_le_all (fun c => c.close) w0 wr d ((hiff d).mpr ⟨hd, hd1, hd2⟩)
    have hhc : (compute_launch_highlow cs2 lt).highest_close
        = some (pyFoldMax (fun c => c.close) w0 wr).close := by
      unfold compute_launch_highlow
      rw [hW]
    have hht : (compute_launch_highlow cs2 lt).highest_time
        = some (pyFoldMax (fun c => c.close) w0 wr).timestamp := by
      unfold compute_launch_highlow
      rw [hW]
    refine ⟨pyFoldMax (fun c => c.close) w0 wr, hhm, hhw, hhc, hht, hmax, ?_, ?_⟩
    · rintro ⟨d, hd, hdw, hdt⟩
      have hdf : d ∈ (w0 :: wr).filter
          (fun c => decide ((pyFoldMax (fun c => c.close) w0 wr).timestamp
            < c.timestamp)) := by
        rw [List.mem_filter]
        exact ⟨(hiff d).mpr ⟨hd, hdw⟩, by simpa using hdt⟩
      have hane := List.ne_nil_of_mem hdf
      cases hBB : build_3m_buckets ((w0 :: wr).filter
          (fun c => decide ((pyFoldMax (fun c => c.close) w0 wr).timestamp
            < c.timestamp))) with
      | nil => exact absurd hBB (build_3m_buckets_ne_nil hane)
      | cons b bs =>
        have hlb : pyFoldMin (fun bb : CandleBucket => bb.close) b bs
            ∈ build_3m_buckets ((w0 :: wr).filter
              (fun c => decide ((pyFoldMax (fun c => c.close) w0 wr).timestamp
                < c.timestamp))) := by
          rw [hBB]
          exact pyFoldMin_mem_cons _ b bs
        have hcne := bucket_candles_ne_nil hlb
        cases hLC : (pyFoldMin (fun bb : CandleBucket => bb.close) b bs).candles with
        | nil => exact absurd hLC hcne
        | cons c cs'' =>
          have hpm : pyFoldMin (fun d => d.close) c cs''
              ∈ (pyFoldMin (fun bb : CandleBucket => bb.close) b bs).candles := by
            rw [hLC]
            exact pyFoldMin_mem_cons _ c cs''
          have hpal := bucket_candle_mem hlb hpm
          obtain ⟨hpw, hpt⟩ := List.mem_filter.mp hpal
          obtain ⟨hp1, hp2⟩ := (hiff _).mp hpw
          refine ⟨pyFoldMin (fun d => d.close) c cs'', hp1, hp2, by simpa using hpt,
            ?_, ?_⟩
          · unfold compute_launch_highlow
            rw [hW]
            dsimp only
            rw [hBB]
            dsimp only
            rw [hLC]
          · unfold compute_launch_highlow
            rw [hW]
            dsimp only
            rw [hBB]
            dsimp only
            rw [hLC]
    · intro hno
      have hA0 : (w0 :: wr).filter
          (fun c => decide ((pyFoldMax (fun c => c.close) w0 wr).timestamp
            < c.timestamp)) = [] := by
        rw [List.filter_eq_nil_iff]
        intro d hd
        simp only [decide_eq_true_eq]
        intro hdt
        obtain ⟨hd1, hd2⟩ := (hiff d).mp hd
        exact hno ⟨d, hd1, hd2, hdt⟩
      constructor
      · unfold compute_launch_highlow
        rw [hW]
        dsimp only
        rw [hA0]
        rfl
      · unfold compute_launch_highlow
        rw [hW]
        dsimp only
        rw [hA0]
        rfl

lemma launch_extremum_low (cs2 : List Candle) (lt : Int)
    (h2 : ∃ c ∈ cs2, lt < c.timestamp ∧ c.timestamp ≤ lt + 120 * 60000) :
    ∃ lc ∈ cs2, (lt < lc.timestamp ∧ lc.timestamp ≤ lt + 120 * 60000)
      ∧ (compute_launch_highlow cs2 lt).lowest_close = some lc.close
      ∧ (compute_launch_highlow cs2 lt).lowest_time = some lc.timestamp
      ∧ (∀ d ∈ cs2, lt < d.timestamp → d.timestamp ≤ lt + 120 * 60000 →
          lc.close ≤ d.close)
      ∧ ((∃ d ∈ cs2, (lt < d.timestamp ∧ d.timestamp ≤ lt + 120 * 60000)
            ∧ lc.timestamp < d.timestamp) →
          ∃ p ∈ cs2, (lt < p.timestamp ∧ p.timestamp ≤ lt + 120 * 60000)
            ∧ lc.timestamp < p.timestamp
            ∧ (compute_launch_highlow cs2 lt).pullback_2_close = some p.close
            ∧ (compute_launch_highlow cs2 lt).pullback_2_time = some p.timestamp)
      ∧ ((¬ ∃ d ∈ cs2, (lt < d.timestamp ∧ d.timestamp ≤ lt + 120 * 60000)
            ∧ lc.timestamp < d.timestamp) →
          (compute_launch_highlow cs2 lt).pullback_2_close = none
          ∧ (compute_launch_highlow cs2 lt).pullback_2_time = none) := by
  obtain ⟨cw, hcw1, hcw2⟩ := h2
  have hmemw : cw ∈ sortByTs (cs2.filter
      (fun c => decide (lt < c.timestamp ∧ c.timestamp ≤ lt + 120 * 60000))) := by
    rw [mem_sortByTs, List.mem_filter]
    exact ⟨hcw1, by simpa using hcw2⟩
  cases hW : sortByTs (cs2.filter
      (fun c => decide (lt < c.timestamp ∧ c.timestamp ≤ lt + 120 * 60000))) with
  | nil => rw [hW] at hmemw; cases hmemw
  | cons w0 wr =>
    have hiff : ∀ c : Candle, c ∈ w0 :: wr
        ↔ c ∈ cs2 ∧ (lt < c.timestamp ∧ c.timestamp ≤ lt + 120 * 60000) := by
      intro c
      rw [← hW, mem_sortByTs, List.mem_filter]
      simp only [decide_eq_true_eq]
    obtain ⟨hhm, hhw⟩ := (hiff (pyFoldMin (fun c => c.close) w0 wr)).mp
      (pyFoldMin_mem_cons (fun c => c.close) w0 wr)
    have hmin : ∀ d ∈ cs2, lt < d.timestamp → d.timestamp ≤ lt + 120 * 60000 →
        (pyFoldMin (fun c => c.close) w0 wr).close ≤ d.close := by
      intro d hd hd1 hd2
      exact pyFoldMin_le_all (fun c => c.close) w0 wr d ((hiff d).mpr ⟨hd, hd1, hd2⟩)
    have hhc : (compute_launch_highlow cs2 lt).lowest_close
        = some (pyFoldMin (fun c => c.close) w0 wr).close := by
      unfold compute_launch_highlow
      rw [hW]
    have hht : (compute_launch_highlow cs2 lt).lowest_time
        = some (pyFoldMin (fun c => c.close) w0 wr).timestamp := by
      unfold compute_launch_highlow
      rw [hW]
    refine ⟨pyFoldMin (fun c => c.close) w0 wr, hhm, hhw, hhc, hht, hmin, ?_, ?_⟩
    · rintro ⟨d, hd, hdw, hdt⟩
      have hdf : d ∈ (w0 :: wr).filter
          (fun c => decide ((pyFoldMin (fun c => c.close) w0 wr).timestamp
            < c.timestamp)) := by
        rw [List.mem_filter]
        exact ⟨(hiff d).mpr ⟨hd, hdw⟩, by simpa using hdt⟩
      have hane := List.ne_nil_of_mem hdf
      cases hBB : build_3m_buckets ((w0 :: wr).filter
          (fun c => decide ((pyFoldMin (fun c => c.close) w0 wr).timestamp
            < c.timestamp))) with
      | nil => exact absurd hBB (build_3m_buckets_ne_nil hane)
      | cons b bs =>
        have hlb : pyFoldMax (fun bb : CandleBucket => bb.close) b bs
            ∈ build_3m_buckets ((w0 :: wr).filter
              (fun c => decide ((pyFoldMin (fun c => c.close) w0 wr).timestamp
                < c.timestamp))) := by
          rw [hBB]
          exact pyFoldMax_mem_cons _ b bs
        have hcne := bucket_candles_ne_nil hlb
        cases hLC : (pyFoldMax (fun bb : CandleBucket => bb.close) b bs).candles with
        | nil => exact absurd hLC hcne
        | cons c cs'' =>
          have hpm : pyFoldMax (fun d => d.close) c cs''
              ∈ (pyFoldMax (fun bb : CandleBucket => bb.close) b bs).candles := by
            rw [hLC]
            exact pyFoldMax_mem_cons _ c cs''
          have hpal := bucket_candle_mem hlb hpm
          obtain ⟨hpw, hpt⟩ := List.mem_filter.mp hpal
          obtain ⟨hp1, hp2⟩ := (hiff _).mp hpw
          refine ⟨pyFoldMax (fun d => d.close) c cs'', hp1, hp2, by simpa using hpt,
            ?_, ?_⟩
          · unfold compute_launch_highlow
            rw [hW]
            dsimp only
            rw [hBB]
            dsimp only
            rw [hLC]
          · unfold compute_launch_highlow
            rw [hW]
            dsimp only
            rw [hBB]
            dsimp only
            rw [hLC]
    · intro hno
      have hA0 : (w0 :: wr).filter
          (fun c => decide ((pyFoldMin (fun c => c.close) w0 wr).timestamp
            < c.timestamp)) = [] := by
        rw [List.filter_eq_nil_iff]
        intro d hd
        simp only [decide_eq_true_eq]
        intro hdt
        obtain ⟨hd1, hd2⟩ := (hiff d).mp hd
        exact hno ⟨d, hd1, hd2, hdt⟩
      constructor
      · unfold compute_launch_highlow
        rw [hW]
        dsimp only
        rw [hA0]
        rfl
      · unfold compute_launch_highlow
        rw [hW]
        dsimp only
        rw [hA0]
        rfl

/-- C4 counterexample: on this window, `compute_launch_highlow` reports
`pullback_1_close = 20` even though the candle at 180000 (close 5) lies in the
window strictly after the reported high; the minimum close among candles
strictly after the max is 5, so the pass does not produce that minimum. -/
theorem global_extremum_pass_counterexample :
    (compute_launch_highlow
        [⟨60000, 100⟩, ⟨180000, 5⟩, ⟨240000, 50⟩, ⟨360000, 20⟩] 0).highest_time
      = some 60000
    ∧ (compute_launch_highlow
        [⟨60000, 100⟩, ⟨180000, 5⟩, ⟨240000, 50⟩, ⟨360000, 20⟩] 0).pullback_1_close
      = some 20
    ∧ (⟨180000, 5⟩ : Candle)
        ∈ ([⟨60000, 100⟩, ⟨180000, 5⟩, ⟨240000, 50⟩, ⟨360000, 20⟩] : List Candle)
    ∧ ((0 : Int) < 180000 ∧ (180000 : Int) ≤ 0 + 120 * 60000)
    ∧ (60000 : Int) < 180000
    ∧ (∀ d ∈ ([⟨60000, 100⟩, ⟨180000, 5⟩, ⟨240000, 50⟩, ⟨360000, 20⟩] : List Candle),
        (60000 : Int) < d.timestamp → (5 : ℚ) ≤ d.close)
    ∧ ¬ ((20 : ℚ) ≤ 5) :=
  ⟨by decide, by decide, by decide, by decide, by decide, by decide, by decide⟩

/-- C4 (amended): for every non-empty reaction window, `compute_micro_highs`
produces the candle with the maximum close and, among candles strictly after
it, the minimum close (absent with the note "max price #2 at end of window"
when the max is the window's last candle); `compute_launch_highlow` produces
the window's maximum and minimum closes, and its pullback fields carry the
close of a candle strictly after the respective extremum selected by the
3-minute-bucket drill-down (not necessarily the subsequent global extremum),
absent — without any note — when the extremum is the window's last candle. -/
theorem global_extremum_pass (cs : List Candle) (ws we : Int) (la : Nat) (pct : ℚ)
    (cs2 : List Candle) (lt : Int)
    (h1 : ∃ c ∈ cs, ws ≤ c.timestamp ∧ c.timestamp ≤ we)
    (h2 : ∃ c ∈ cs2, lt < c.timestamp ∧ c.timestamp ≤ lt + 120 * 60000) :
    (∃ hc ∈ cs, (ws ≤ hc.timestamp ∧ hc.timestamp ≤ we)
      ∧ (compute_micro_highs cs ws we la pct).max_price_2_close = some hc.close
      ∧ (compute_micro_highs cs ws we la pct).max_price_2_time = some hc.timestamp
      ∧ (∀ d ∈ cs, ws ≤ d.timestamp → d.timestamp ≤ we → d.close ≤ hc.close)
      ∧ ((∃ d ∈ cs, (ws ≤ d.timestamp ∧ d.timestamp ≤ we) ∧ hc.timestamp < d.timestamp) →
          ∃ ld ∈ cs, (ws ≤ ld.timestamp ∧ ld.timestamp ≤ we) ∧ hc.timestamp < ld.timestamp
            ∧ (compute_micro_highs cs ws we la pct).lowest_after_2_close = some ld.close
            ∧ (compute_micro_highs cs ws we la pct).lowest_after_2_time = some ld.timestamp
            ∧ ∀ d ∈ cs, ws ≤ d.timestamp → d.timestamp ≤ we →
                hc.timestamp < d.timestamp → ld.close ≤ d.close)
      ∧ ((¬ ∃ d ∈ cs, (ws ≤ d.timestamp ∧ d.timestamp ≤ we) ∧ hc.timestamp < d.timestamp) →
          (compute_micro_highs cs ws we la pct).lowest_after_2_close = none
          ∧ (compute_micro_highs cs ws we la pct).lowest_after_2_time = none
          ∧ "max price #2 at end of window" ∈ (compute_micro_highs cs ws we la pct).notes))
    ∧ (∃ hc ∈ cs2, (lt < hc.timestamp ∧ hc.timestamp ≤ lt + 120 * 60000)
      ∧ (compute_launch_highlow cs2 lt).highest_close = some hc.close
      ∧ (compute_launch_highlow cs2 lt).highest_time = some hc.timestamp
      ∧ (∀ d ∈ cs2, lt < d.timestamp → d.timestamp ≤ lt + 120 * 60000 →
          d.close ≤ hc.close)
      ∧ ((∃ d ∈ cs2, (lt < d.timestamp ∧ d.timestamp ≤ lt + 120 * 60000)
            ∧ hc.timestamp < d.timestamp) →
          ∃ p ∈ cs2, (lt < p.timestamp ∧ p.timestamp ≤ lt + 120 * 60000)
            ∧ hc.timestamp < p.timestamp
            ∧ (compute_launch_highlow cs2 lt).pullback_1_close = some p.close
            ∧ (compute_launch_highlow cs2 lt).pullback_1_time = some p.timestamp)
      ∧ ((¬ ∃ d ∈ cs2, (lt < d.timestamp ∧ d.timestamp ≤ lt + 120 * 60000)
            ∧ hc.timestamp < d.timestamp) →
          (compute_launch_highlow cs2 lt).pullback_1_close = none
          ∧ (compute_launch_highlow cs2 lt).pullback_1_time = none))
    ∧ (∃ lc ∈ cs2, (lt < lc.timestamp ∧ lc.timestamp ≤ lt + 120 * 60000)
      ∧ (compute_launch_highlow cs2 lt).lowest_close = some lc.close
      ∧ (compute_launch_highlow cs2 lt).lowest_time = some lc.timestamp
      ∧ (∀ d ∈ cs2, lt < d.timestamp → d.timestamp ≤ lt + 120 * 60000 →
          lc.close ≤ d.close)
      ∧ ((∃ d ∈ cs2, (lt < d.timestamp ∧ d.timestamp ≤ lt + 120 * 60000)
            ∧ lc.timestamp < d.timestamp) →
          ∃ p ∈ cs2, (lt < p.timestamp ∧ p.timestamp ≤ lt + 120 * 60000)
            ∧ lc.timestamp < p.timestamp
            ∧ (compute_launch_highlow cs2 lt).pullback_2_close = some p.close
            ∧ (compute_launch_highlow cs2 lt).pullback_2_time = some p.timestamp)
      ∧ ((¬ ∃ d ∈ cs2, (lt < d.timestamp ∧ d.timestamp ≤ lt + 120 * 60000)
            ∧ lc.timestamp < d.timestamp) →
          (compute_launch_highlow cs2 lt).pullback_2_close = none
          ∧ (compute_launch_highlow cs2 lt).pullback_2_time = none)) :=
  ⟨micro_global_max_pass cs ws we la pct h1,
    launch_extremum_high cs2 lt h2,
    launch_extremum_low cs2 lt h2⟩

/-- Witness for C4 (amended) at two small concrete windows: the theorem's
hypotheses hold and its Part-A conclusion applies. -/
theorem global_extremum_pass_witness :
    (∃ c ∈ ([⟨0, 1⟩, ⟨60000, 3⟩, ⟨120000, 2⟩] : List Candle),
      (0 : Int) ≤ c.timestamp ∧ c.timestamp ≤ 600000)
    ∧ (∃ c ∈ ([⟨60000, 3⟩, ⟨120000, 1⟩] : List Candle),
      (0 : Int) < c.timestamp ∧ c.timestamp ≤ 0 + 120 * 60000)
    ∧ (∃ hc ∈ ([⟨0, 1⟩, ⟨60000, 3⟩, ⟨120000, 2⟩] : List Candle),
      ((0 : Int) ≤ hc.timestamp ∧ hc.timestamp ≤ 600000)
      ∧ (compute_micro_highs [⟨0, 1⟩, ⟨60000, 3⟩, ⟨120000, 2⟩]
          0 600000 4 0).max_price_2_close = some hc.close
      ∧ (compute_micro_highs [⟨0, 1⟩, ⟨60000, 3⟩, ⟨120000, 2⟩]
          0 600000 4 0).max_price_2_time = some hc.timestamp
      ∧ (∀ d ∈ ([⟨0, 1⟩, ⟨60000, 3⟩, ⟨120000, 2⟩] : List Candle),
          (0 : Int) ≤ d.timestamp → d.timestamp ≤ 600000 → d.close ≤ hc.close)
      ∧ ((∃ d ∈ ([⟨0, 1⟩, ⟨60000, 3⟩, ⟨120000, 2⟩] : List Candle),
            ((0 : Int) ≤ d.timestamp ∧ d.timestamp ≤ 600000)
            ∧ hc.timestamp < d.timestamp) →
          ∃ ld ∈ ([⟨0, 1⟩, ⟨60000, 3⟩, ⟨120000, 2⟩] : List Candle),
            ((0 : Int) ≤ ld.timestamp ∧ ld.timestamp ≤ 600000)
            ∧ hc.timestamp < ld.timestamp
            ∧ (compute_micro_highs [⟨0, 1⟩, ⟨60000, 3⟩, ⟨120000, 2⟩]
                0 600000 4 0).lowest_after_2_close = some ld.close
            ∧ (compute_micro_highs [⟨0, 1⟩, ⟨60000, 3⟩, ⟨120000, 2⟩]
                0 600000 4 0).lowest_after_2_time = some ld.timestamp
            ∧ ∀ d ∈ ([⟨0, 1⟩, ⟨60000, 3⟩, ⟨120000, 2⟩] : List Candle),
                (0 : Int) ≤ d.timestamp → d.timestamp ≤ 600000 →
                  hc.timestamp < d.timestamp → ld.close ≤ d.close)
      ∧ ((¬ ∃ d ∈ ([⟨0, 1⟩, ⟨60000, 3⟩, ⟨120000, 2⟩] : List Candle),
            ((0 : Int) ≤ d.timestamp ∧ d.timestamp ≤ 600000)
            ∧ hc.timestamp < d.timestamp) →
          (compute_micro_highs [⟨0, 1⟩, ⟨60000, 3⟩, ⟨120000, 2⟩]
              0 600000 4 0).lowest_after_2_close = none
          ∧ (compute_micro_highs [⟨0, 1⟩, ⟨60000, 3⟩, ⟨120000, 2⟩]
              0 600000 4 0).lowest_after_2_time = none
          ∧ "max price #2 at end of window"
              ∈ (compute_micro_highs [⟨0, 1⟩, ⟨60000, 3⟩, ⟨120000, 2⟩]
                  0 600000 4 0).notes)) :=
  ⟨by decide, by decide,
    (global_extremum_pass [⟨0, 1⟩, ⟨60000, 3⟩, ⟨120000, 2⟩] 0 600000 4 0
      [⟨60000, 3⟩, ⟨120000, 1⟩] 0 (by decide) (by decide)).1⟩

/-! Helper lemmas for the adaptive launch-time search (C1, C5). -/

lemma honest_fetch_mem {S : List Int} {s e : Int} {lim : Nat} {ts : Int}
    (h : ts ∈ honest_fetch S s e lim) : ts ∈ S ∧ s ≤ ts ∧ ts < e := by
  unfold honest_fetch at h
  have h1 := List.take_subset lim (S.filter (fun ts => decide (s ≤ ts ∧ ts < e))) h
  obtain ⟨h2, h3⟩ := List.mem_filter.mp h1
  exact ⟨h2, by simpa using h3⟩

lemma honest_fetch_head {S : List Int} (hS : List.Sorted (· ≤ ·) S)
    (start_ts m : Int) (hm : m ∈ S)
    (hmin : ∀ ts ∈ S, start_ts ≤ ts → m ≤ ts)
    {cursor e : Int} {lim : Nat} (hlim : 1 ≤ lim)
    (hc1 : start_ts ≤ cursor) (hc2 : cursor ≤ m) (hc3 : m < e) :
    ∃ t, honest_fetch S cursor e lim = m :: t ∧ ∀ y ∈ t, m ≤ y := by
  unfold honest_fetch
  have hmF : m ∈ S.filter (fun ts => decide (cursor ≤ ts ∧ ts < e)) := by
    rw [List.mem_filter]
    refine ⟨hm, ?_⟩
    simp only [decide_eq_true_eq]
    exact ⟨hc2, hc3⟩
  cases hF : S.filter (fun ts => decide (cursor ≤ ts ∧ ts < e)) with
  | nil => rw [hF] at hmF; cases hmF
  | cons f ftail =>
    have hsort : List.Sorted (· ≤ ·) (f :: ftail) := by
      rw [← hF]
      exact hS.filter _
    have hfm : f = m := by
      have hfmem : f ∈ S.filter (fun ts => decide (cursor ≤ ts ∧ ts < e)) := by
        rw [hF]
        exact List.mem_cons_self f ftail
      obtain ⟨hf1, hf2⟩ := List.mem_filter.mp hfmem
      simp only [decide_eq_true_eq] at hf2
      have h1 : m ≤ f := hmin f hf1 (by omega)
      rw [hF] at hmF
      rcases List.mem_cons.mp hmF with h | h
      · omega
      · have h2 := List.rel_of_sorted_cons hsort m h
        omega
    subst hfm
    cases lim with
    | zero => omega
    | succ l =>
      rw [List.take_succ_cons]
      refine ⟨ftail.take l, rfl, ?_⟩
      intro y hy
      exact List.rel_of_sorted_cons hsort y (List.take_subset l ftail hy)

lemma fftLoop_finds (S : List Int) (hS : List.Sorted (· ≤ ·) S)
    (start_ts interval search_end : Int) (lim : Nat) (hlim : 1 ≤ lim)
    (hiv : 1 ≤ interval) (m : Int) (hm : m ∈ S)
    (hmin : ∀ ts ∈ S, start_ts ≤ ts → m ≤ ts) :
    ∀ (fuel : Nat) (cursor window maxw : Int),
      start_ts ≤ cursor → cursor ≤ m → m < search_end →
      1 ≤ window → 1 ≤ maxw →
      search_end - cursor < (fuel : Int) →
      (fftLoop (honest_fetch S) start_ts interval search_end lim
          fuel cursor window maxw).1 = some m := by
  intro fuel
  induction fuel with
  | zero =>
    intro cursor window maxw h1 h2 h3 h4 h5 h6
    exfalso
    simp only [Nat.cast_zero] at h6
    omega
  | succ fuel ih =>
    intro cursor window maxw h1 h2 h3 h4 h5 h6
    have hcur : cursor < search_end := by omega
    simp only [fftLoop]
    rw [if_pos hcur]
    by_cases hmw : m < min (cursor + window) search_end
    · obtain ⟨t, hfe, hge⟩ := honest_fetch_head hS start_ts m hm hmin hlim h1 h2 hmw
      rw [hfe]
      have hbound : ∀ y ∈ m :: t, y < min (cursor + window) search_end := by
        intro y hy
        have hy' : y ∈ honest_fetch S cursor (min (cursor + window) search_end) lim := by
          rw [hfe]
          exact hy
        exact (honest_fetch_mem hy').2.2
      have hsane : ¬ ((m :: t) ≠ [] ∧ listMax (m :: t)
          > min (cursor + window) search_end + 2 * interval) := by
        rintro ⟨_, hgt⟩
        have hb := hbound _ (listMax_mem m t)
        omega
      rw [if_neg hsane]
      have hfil : (m :: t).filter (fun ts => decide (start_ts - interval ≤ ts)) = m :: t := by
        rw [List.filter_eq_self]
        intro a ha
        simp only [decide_eq_true_eq]
        have h := (honest_fetch_mem (show a ∈ honest_fetch S cursor
          (min (cursor + window) search_end) lim by rw [hfe]; exact ha)).2.1
        omega
      rw [hfil]
      rw [if_pos (List.cons_ne_nil m t)]
      simp only
      rw [listMin_eq_head_of_le m t hge]
    · have hwe : min (cursor + window) search_end ≤ m := by omega
      have hfe : honest_fetch S cursor (min (cursor + window) search_end) lim = [] := by
        unfold honest_fetch
        have hnil : S.filter (fun ts => decide (cursor ≤ ts
            ∧ ts < min (cursor + window) search_end)) = [] := by
          rw [List.filter_eq_nil_iff]
          intro a ha
          simp only [decide_eq_true_eq]
          rintro ⟨ha1, ha2⟩
          have hma : m ≤ a := hmin a ha (by omega)
          omega
        rw [hnil, List.take_nil]
      rw [hfe]
      rw [if_neg (by simp)]
      rw [if_neg (by simp)]
      have hwe1 : cursor + 1 ≤ min (cursor + window) search_end :=
        le_min (by omega) (by omega)
      have hw' : 1 ≤ (if window < maxw then min (window * 2) maxw else window) := by
        by_cases h : window < maxw
        · rw [if_pos h]
          exact le_min (by omega) h5
        · rw [if_neg h]
          exact h4
      exact ih (min (cursor + window) search_end)
        (if window < maxw then min (window * 2) maxw else window) maxw
        (by omega) hwe h3 hw' h5 (by push_cast at h6; omega)

lemma one_le_lim_mul_interval {lim : Nat} {interval : Int}
    (hlim : 1 ≤ lim) (hiv : 1 ≤ interval) : (1 : Int) ≤ (lim : Int) * interval := by
  have hl : (1 : Int) ≤ (lim : Int) := by exact_mod_cast hlim
  nlinarith

/-- C1: for every candle source backed by an ascending series containing at
least one timestamp at/after the anchor within the lookahead bound,
`find_first_trade_time` returns exactly the minimum timestamp at/after the
anchor — never an earlier timestamp and never a later qualifying one. -/
theorem find_first_trade_time_returns_min (S : List Int)
    (hS : List.Sorted (· ≤ ·) S) (start_ts interval lookahead : Int) (lim : Nat)
    (hiv : 1 ≤ interval) (hlim : 1 ≤ lim) (m : Int) (hm : m ∈ S)
    (hge : start_ts ≤ m) (hlt : m < start_ts + lookahead)
    (hmin : ∀ ts ∈ S, start_ts ≤ ts → m ≤ ts) :
    (find_first_trade_time (honest_fetch S) start_ts interval lookahead lim).1
      = some m := by
  unfold find_first_trade_time
  have hmaxw : (1 : Int) ≤ min 57600000 ((lim : Int) * interval) :=
    le_min (by norm_num) (one_le_lim_mul_interval hlim hiv)
  apply fftLoop_finds S hS start_ts interval (start_ts + lookahead) lim hlim hiv m hm hmin
  · exact le_refl _
  · exact hge
  · exact hlt
  · exact le_min (by norm_num) hmaxw
  · exact hmaxw
  · have h := Int.self_le_toNat lookahead
    push_cast
    omega

/-- Witness for C1 at a concrete two-element series. -/
theorem find_first_trade_time_returns_min_witness :
    List.Sorted (· ≤ ·) ([500000, 600000] : List Int)
    ∧ (1 : Int) ≤ 60000 ∧ (1 : Nat) ≤ 1000
    ∧ (500000 : Int) ∈ ([500000, 600000] : List Int)
    ∧ (0 : Int) ≤ 500000 ∧ (500000 : Int) < 0 + 604800000
    ∧ (∀ ts ∈ ([500000, 600000] : List Int), (0 : Int) ≤ ts → 500000 ≤ ts)
    ∧ (find_first_trade_time (honest_fetch [500000, 600000]) 0 60000 604800000 1000).1
        = some 500000 :=
  ⟨by decide, by decide, by decide, by decide, by decide, by decide, by decide,
    find_first_trade_time_returns_min [500000, 600000] (by decide) 0 60000 604800000
      1000 (by decide) (by decide) 500000 (by decide) (by decide) (by decide) (by decide)⟩

lemma fftLoop_none (S : List Int) (start_ts interval search_end : Int) (lim : Nat)
    (hempty : ∀ ts ∈ S, ¬(start_ts ≤ ts ∧ ts < search_end)) :
    ∀ (fuel : Nat) (cursor window maxw : Int),
      start_ts ≤ cursor → 0 ≤ window → 0 ≤ maxw →
      (fftLoop (honest_fetch S) start_ts interval search_end lim
          fuel cursor window maxw).1 = none := by
  intro fuel
  induction fuel with
  | zero => intro cursor window maxw h1 h2 h3; rfl
  | succ fuel ih =>
    intro cursor window maxw h1 h2 h3
    simp only [fftLoop]
    by_cases hcur : cursor < search_end
    · rw [if_pos hcur]
      have hfe : honest_fetch S cursor (min (cursor + window) search_end) lim = [] := by
        unfold honest_fetch
        have hnil : S.filter (fun ts => decide (cursor ≤ ts
            ∧ ts < min (cursor + window) search_end)) = [] := by
          rw [List.filter_eq_nil_iff]
          intro a ha
          simp only [decide_eq_true_eq]
          rintro ⟨ha1, ha2⟩
          have hup := min_le_right (cursor + window) search_end
          exact hempty a ha ⟨by omega, by omega⟩
        rw [hnil, List.take_nil]
      rw [hfe]
      rw [if_neg (by simp)]
      rw [if_neg (by simp)]
      have hw' : 0 ≤ (if window < maxw then min (window * 2) maxw else window) := by
        by_cases h : window < maxw
        · rw [if_pos h]
          exact le_min (by omega) h3
        · rw [if_neg h]
          exact h2
      exact ih (min (cursor + window) search_end)
        (if window < maxw then min (window * 2) maxw else window) maxw
        (le_min (by omega) (by omega)) hw' h3
    · rw [if_neg hcur]

lemma count_div_step (n n' W : Nat) (hW : 1 ≤ W) (hn : 1 ≤ n) (h : n' ≤ n - W) :
    (n' + W - 1) / W + 1 ≤ (n + W - 1) / W := by
  rcases le_or_lt n W with hnW | hnW
  · have hn0 : n' = 0 := by omega
    subst hn0
    have h1 : (0 + W - 1) / W = 0 := Nat.div_eq_of_lt (by omega)
    rw [h1]
    have h2 : 1 * W ≤ n + W - 1 := by omega
    have h3 := (Nat.le_div_iff_mul_le (by omega : 0 < W)).mpr h2
    omega
  · have h1 : n' + W - 1 ≤ n - 1 := by omega
    have h2 := @Nat.div_le_div_right (n' + W - 1) (n - 1) W h1
    calc (n' + W - 1) / W + 1 ≤ (n - 1) / W + 1 := Nat.add_le_add_right h2 1
      _ = (n - 1 + W) / W := (Nat.add_div_right _ (by omega)).symm
      _ = (n + W - 1) / W := by congr 1; omega

lemma fftLoop_count_le (fetch : Int → Int → Nat → List Int)
    (start_ts interval search_end : Int) (lim : Nat) (w0 : Int) (hw0 : 1 ≤ w0) :
    ∀ (fuel : Nat) (cursor window maxw : Int), w0 ≤ window →
      (fftLoop fetch start_ts interval search_end lim fuel cursor window maxw).2
        ≤ ((search_end - cursor).toNat + w0.toNat - 1) / w0.toNat := by
  intro fuel
  induction fuel with
  | zero => intro cursor window maxw hw; exact Nat.zero_le _
  | succ fuel ih =>
    intro cursor window maxw hw
    simp only [fftLoop]
    by_cases hcur : cursor < search_end
    · rw [if_pos hcur]
      have hW1 : 1 ≤ w0.toNat := by omega
      have hn1 : 1 ≤ (search_end - cursor).toNat := by omega
      have hone : 1 ≤ ((search_end - cursor).toNat + w0.toNat - 1) / w0.toNat := by
        rw [Nat.le_div_iff_mul_le (by omega : 0 < w0.toNat)]
        omega
      by_cases hsan : fetch cursor (min (cursor + window) search_end) lim ≠ []
          ∧ listMax (fetch cursor (min (cursor + window) search_end) lim)
            > min (cursor + window) search_end + 2 * interval
      · rw [if_pos hsan]
        exact hone
      · rw [if_neg hsan]
        by_cases hfil : (fetch cursor (min (cursor + window) search_end) lim).filter
            (fun ts => decide (start_ts - interval ≤ ts)) ≠ []
        · rw [if_pos hfil]
          exact hone
        · rw [if_neg hfil]
          have hw' : w0 ≤ (if window < maxw then min (window * 2) maxw else window) := by
            by_cases h : window < maxw
            · rw [if_pos h]
              exact le_min (by omega) (by omega)
            · rw [if_neg h]
              exact hw
          have hrec := ih (min (cursor + window) search_end)
            (if window < maxw then min (window * 2) maxw else window) maxw hw'
          have hstep : (search_end - min (cursor + window) search_end).toNat
              ≤ (search_end - cursor).toNat - w0.toNat := by
            have hm1 := min_le_right (cursor + window) search_end
            rcases min_choice (cursor + window) search_end with h | h
            · omega
            · omega
          exact le_trans (Nat.add_le_add_right hrec 1)
            (count_div_step _ _ _ hW1 hn1 hstep)
    · rw [if_neg hcur]
      exact Nat.zero_le _

/-- C5: for every series-backed source with no qualifying timestamp within
`max_lookahead_ms` of the anchor, the search terminates with absent, and the
number of source probes is at most `⌈max_lookahead / initial_window⌉ +
log2(max_window / initial_window)` (the first summand alone already bounds
it, since every probe advances the cursor by at least the initial window). -/
theorem find_first_trade_time_absent_bounded (S : List Int)
    (start_ts interval lookahead : Int) (lim : Nat)
    (hiv : 1 ≤ interval) (hlim : 1 ≤ lim)
    (hempty : ∀ ts ∈ S, ¬(start_ts ≤ ts ∧ ts < start_ts + lookahead)) :
    (find_first_trade_time (honest_fetch S) start_ts interval lookahead lim).1 = none
    ∧ (find_first_trade_time (honest_fetch S) start_ts interval lookahead lim).2
      ≤ (lookahead.toNat
            + (min 7200000 (min 57600000 ((lim : Int) * interval))).toNat - 1)
          / (min 7200000 (min 57600000 ((lim : Int) * interval))).toNat
        + Nat.log 2 ((min 57600000 ((lim : Int) * interval)).toNat
            / (min 7200000 (min 57600000 ((lim : Int) * interval))).toNat) := by
  have hmaxw : (1 : Int) ≤ min 57600000 ((lim : Int) * interval) :=
    le_min (by norm_num) (one_le_lim_mul_interval hlim hiv)
  have hw1 : (1 : Int) ≤ min 7200000 (min 57600000 ((lim : Int) * interval)) :=
    le_min (by norm_num) hmaxw
  constructor
  · unfold find_first_trade_time
    exact fftLoop_none S start_ts interval (start_ts + lookahead) lim hempty _ _ _ _
      (le_refl _) (by omega) (by omega)
  · unfold find_first_trade_time
    have hb := fftLoop_count_le (honest_fetch S) start_ts interval
      (start_ts + lookahead) lim (min 7200000 (min 57600000 ((lim : Int) * interval)))
      hw1 (lookahead.toNat + 1) start_ts
      (min 7200000 (min 57600000 ((lim : Int) * interval)))
      (min 57600000 ((lim : Int) * interval)) (le_refl _)
    refine le_trans (le_trans hb (le_of_eq ?_)) (Nat.le_add_right _ _)
    rw [show start_ts + lookahead - start_ts = lookahead from by omega]

/-- Witness for C5 at a series with no timestamps at all. -/
theorem find_first_trade_time_absent_bounded_witness :
    ((1 : Int) ≤ 60000) ∧ ((1 : Nat) ≤ 1000)
    ∧ (∀ ts ∈ ([] : List Int), ¬((0 : Int) ≤ ts ∧ ts < 0 + 604800000))
    ∧ (find_first_trade_time (honest_fetch []) 0 60000 604800000 1000).1 = none :=
  ⟨by decide, by decide, by decide,
    (find_first_trade_time_absent_bounded [] 0 60000 604800000 1000
      (by decide) (by decide) (by decide)).1⟩

end Backtesting
